import Mathlib

/-!
Verification development for the Chunk & Versioning core
(`backend/chunk_manager.py`): model fingerprinting, chunk lifecycle,
LoRA adapter lifecycle and the model-switch protocol.

The Python source is shallowly embedded: registries (Python dicts with
insertion order) become association lists `List (String × α)` with
dict-style get/set; wall-clock timestamps (`datetime.now()`) become
explicit `now : String` arguments; the filesystem documents written per
chunk (`documents.json`, `manifest.json`) become fields of the manager
state; the chunk-registry file on disk is modelled explicitly (missing /
corrupt / parsed) to capture startup behaviour on a corrupt registry.
Hash digests (`hashlib`) are abstracted as a function parameter
`hex : List Nat → String` over byte lists.
-/

namespace ChunkCore

/-- A document, as it appears in the Python source: a JSON object with
string-valued fields, modelled as an association list. -/
abbrev Doc := List (String × String)

/-- A Python value that can be `None`, a string, or a bool — the value
space of `previous_model and previous_model != identity_hash`. -/
inductive PyVal where
  | vnone
  | vstr (s : String)
  | vbool (b : Bool)
deriving DecidableEq, Repr

/-- Python truthiness for a `PyVal`. -/
def PyVal.truthy : PyVal → Bool
  | .vnone => false
  | .vstr s => s ≠ ""
  | .vbool b => b

/-- Python truthiness of an optional string (`None` and `""` are falsy). -/
def strTruthy : Option String → Bool
  | none => false
  | some s => s ≠ ""

/-- Python `a or b` on optional strings (`model_identity_hash or
self.current_model`): the left operand unless it is falsy. -/
def pyOrStr (a b : Option String) : Option String :=
  match a with
  | none => b
  | some s => if s = "" then b else some s

/-- Dict lookup: first binding of the key (Python dicts have unique keys). -/
def dictGet (l : List (String × α)) (k : String) : Option α :=
  (l.find? (fun p => p.1 = k)).map Prod.snd

/-- Dict membership (`k in d`). -/
def dictMem (l : List (String × α)) (k : String) : Bool :=
  l.any (fun p => p.1 = k)

/-- Dict assignment `d[k] = v`: replaces the binding in place when the key
is present (keeping insertion order), otherwise appends at the end. -/
def dictSet (l : List (String × α)) (k : String) (v : α) : List (String × α) :=
  if dictMem l k then l.map (fun p => if p.1 = k then (k, v) else p)
  else l ++ [(k, v)]

/-- In-place update of the value bound to `k` (a no-op when absent),
as in `self.chunk_registry[chunk_id]['status'] = status`. -/
def dictModify (l : List (String × α)) (k : String) (f : α → α) :
    List (String × α) :=
  l.map (fun p => if p.1 = k then (p.1, f p.2) else p)

/-- Chunk lifecycle states (`ChunkStatus` string constants). -/
inductive ChunkStatus where
  | pending
  | training
  | trained
  | failed
  | restored
  | archived
deriving DecidableEq, Repr

/-- The string constant each status stands for in the source. -/
def ChunkStatus.str : ChunkStatus → String
  | .pending => "pending"
  | .training => "training"
  | .trained => "trained"
  | .failed => "failed"
  | .restored => "restored"
  | .archived => "archived"

/-- Adapter states (`'active' | 'unusable' | 'deleted'`). -/
inductive LoraStatus where
  | active
  | unusable
  | deleted
deriving DecidableEq, Repr

/-- One history entry `{timestamp, action, details}`. -/
structure HistoryEntry where
  timestamp : String
  action : String
  details : String
deriving DecidableEq, Repr

/-- `DataChunk` record. -/
structure DataChunk where
  chunk_id : String
  created_at : String
  status : ChunkStatus
  model_identity_hash : Option String
  lora_id : Option String
  document_ids : List String
  document_count : Nat
  character : Option String
  metadata : List (String × String)
  history : List HistoryEntry
deriving DecidableEq, Repr

/-- `LoRARecord`. -/
structure LoRARecord where
  lora_id : String
  created_at : String
  model_identity_hash : Option String
  model_name : Option String
  model_type : Option String
  chunk_ids : List String
  path : Option String
  status : LoraStatus
  training_config : List (String × String)
  metrics : List (String × String)
  notes : String
  unusable_reason : Option String
  marked_unusable_at : Option String
  deleted_at : Option String
deriving DecidableEq, Repr

/-- A known-model record in the model registry. -/
structure KnownModel where
  friendly_name : String
  first_seen : String
  last_seen : String
  times_used : Nat
  lora_ids : List String
  compatible_lora_ids : List String
deriving DecidableEq, Repr

/-- One line of `operations.jsonl` (`{timestamp, operation, details}`;
the free-form `details` payload is kept as a rendered string). -/
structure LogEntry where
  timestamp : String
  operation : String
  details : String
deriving DecidableEq, Repr

/-- On-disk state of a registry document: absent, present but
unparseable, or a parsed mapping plus the `_counter` bookkeeping key. -/
inductive RegFile where
  | missing
  | corrupt (raw : String)
  | parsed (entries : List (String × DataChunk)) (counter : Nat)
deriving DecidableEq, Repr

/-- `_load_registry`: a missing or unparseable document yields an empty
registry; the file itself is not touched by loading. -/
def loadChunkRegistry : RegFile → List (String × DataChunk) × Nat
  | .missing => ([], 0)
  | .corrupt _ => ([], 0)
  | .parsed entries counter => (entries, counter)

/-- The in-memory `ChunkManager` state together with the modelled parts
of the data directory (preserved documents, manifests, the chunk
registry document on disk, and the operation log). -/
structure Manager where
  chunk_registry : List (String × DataChunk)
  lora_registry : List (String × LoRARecord)
  known_models : List (String × KnownModel)
  current_model : Option String
  chunk_counter : Nat
  lora_counter : Nat
  /-- contents of `chunks/<id>/documents.json`; a key being present
  models the file existing. -/
  chunk_docs : List (String × List Doc)
  /-- contents of `chunks/<id>/manifest.json`. -/
  manifests : List (String × DataChunk)
  /-- the on-disk `chunk_registry.json` document. -/
  chunk_registry_file : RegFile
  op_log : List LogEntry
deriving DecidableEq, Repr

/-- `__init__` on a fresh data directory (no files yet). -/
def Manager.init : Manager :=
  { chunk_registry := []
    lora_registry := []
    known_models := []
    current_model := none
    chunk_counter := 0
    lora_counter := 0
    chunk_docs := []
    manifests := []
    chunk_registry_file := .missing
    op_log := [] }

/-- `__init__` given an existing chunk-registry document on disk (the
lora/model registries start empty; loading never writes the file). -/
def Manager.initFrom (file : RegFile) : Manager :=
  { Manager.init with
    chunk_registry := (loadChunkRegistry file).1
    chunk_counter := (loadChunkRegistry file).2
    chunk_registry_file := file }

/-! ### Decimal id formatting (`f"chunk_{n:04d}"`, `f"lora_{n:04d}"`) -/

/-- Little-endian base-10 digits, computed with explicit fuel so the
kernel can evaluate it. -/
def natDigitsAux : Nat → Nat → List Nat
  | 0, _ => []
  | _ + 1, 0 => []
  | fuel + 1, n + 1 => (n + 1) % 10 :: natDigitsAux fuel ((n + 1) / 10)

/-- Little-endian base-10 digits of `n` (empty for `0`). -/
def natDigits (n : Nat) : List Nat := natDigitsAux n n

/-- Zero-pad a little-endian digit list to at least 4 digits
(`%04d` pads on the left in big-endian order). -/
def pad4LE (l : List Nat) : List Nat := l ++ List.replicate (4 - l.length) 0

/-- The characters of `"%04d" % n`. -/
def natPad4 (n : Nat) : List Char :=
  ((pad4LE (natDigits n)).reverse).map Nat.digitChar

/-- `f"chunk_{n:04d}"`. -/
def chunkIdOf (n : Nat) : String :=
  String.mk ('c' :: 'h' :: 'u' :: 'n' :: 'k' :: '_' :: natPad4 n)

/-- `f"lora_{n:04d}"`. -/
def loraIdOf (n : Nat) : String :=
  String.mk ('l' :: 'o' :: 'r' :: 'a' :: '_' :: natPad4 n)

/-! ### Persistence helpers -/

/-- `_log_operation`: append one line to `operations.jsonl`. The
free-form `details` dict is carried as a rendered string. -/
def logOp (st : Manager) (operation details now : String) : Manager :=
  { st with op_log :=
      st.op_log ++ [{ timestamp := now, operation, details }] }

/-- `_save_chunk_registry`: write `_counter` plus the mapping and rewrite
the on-disk registry document (unconditionally). -/
def saveChunkRegistry (st : Manager) : Manager :=
  { st with chunk_registry_file := .parsed st.chunk_registry st.chunk_counter }

/-! ### Model management -/

/-- Result record of `register_model`. `model_changed` is the Python
value of `previous_model and previous_model != identity_hash`. -/
structure RegisterResult where
  identity_hash : String
  is_new : Bool
  model_changed : PyVal
  previous_model : Option String
  friendly_name : String
deriving DecidableEq, Repr

/-- `register_model`. Fingerprinting (`ModelFingerprint.identify_model`)
is abstracted: the computed `identity_hash` and the basename `name` are
taken as inputs. -/
def register_model (st : Manager) (identity_hash name : String)
    (friendly_name : Option String) (now : String) : Manager × RegisterResult :=
  let known := st.known_models
  let is_new := !(dictMem known identity_hash)
  let previous_model := st.current_model
  let model_changed : PyVal :=
    match previous_model with
    | none => .vnone
    | some p => if p = "" then .vstr "" else .vbool (p ≠ identity_hash)
  let known' :=
    if is_new then
      dictSet known identity_hash
        { friendly_name := friendly_name.getD name, first_seen := now,
          last_seen := now, times_used := 1, lora_ids := [],
          compatible_lora_ids := [] }
    else
      dictModify known identity_hash
        (fun m => { m with last_seen := now, times_used := m.times_used + 1 })
  let friendly :=
    match dictGet known' identity_hash with
    | some m => m.friendly_name
    | none => name
  let st1 := { st with known_models := known', current_model := some identity_hash }
  let st2 := logOp st1 "model_registered" ("identity_hash=" ++ identity_hash) now
  (st2, { identity_hash, is_new, model_changed, previous_model,
          friendly_name := friendly })

/-! ### Chunk management -/

/-- `_update_chunk_status`: an unknown chunk id is ignored; otherwise the
requested status is set (no transition validation in the source), a
history entry appended, the registry rewritten, the per-chunk manifest
rewritten when it exists, and an operation-log entry emitted. -/
def updateChunkStatus (st : Manager) (chunk_id : String)
    (status : ChunkStatus) (details now : String) : Manager :=
  if !(dictMem st.chunk_registry chunk_id) then st
  else
    let reg := dictModify st.chunk_registry chunk_id (fun c =>
      { c with status := status,
               history := c.history ++
                 [{ timestamp := now, action := status.str, details }] })
    let st1 := saveChunkRegistry { st with chunk_registry := reg }
    let st2 :=
      if dictMem st1.manifests chunk_id then
        { st1 with manifests :=
            match dictGet st1.chunk_registry chunk_id with
            | some c => dictSet st1.manifests chunk_id c
            | none => st1.manifests }
      else st1
    logOp st2 "chunk_status_changed"
      ("chunk_id=" ++ chunk_id ++ ";new_status=" ++ status.str) now

/-- `mark_chunk_training`. -/
def mark_chunk_training (st : Manager) (chunk_id now : String) : Manager :=
  updateChunkStatus st chunk_id .training "Training started" now

/-- `mark_chunk_trained`: writes `lora_id` into the registry entry (when
present) before the status transition. -/
def mark_chunk_trained (st : Manager) (chunk_id lora_id now : String) : Manager :=
  let reg' := dictModify st.chunk_registry chunk_id
    (fun c => { c with lora_id := some lora_id })
  let st' :=
    if dictMem st.chunk_registry chunk_id then { st with chunk_registry := reg' }
    else st
  updateChunkStatus st' chunk_id .trained ("Trained into LoRA " ++ lora_id) now

/-- `mark_chunk_failed`. -/
def mark_chunk_failed (st : Manager) (chunk_id error now : String) : Manager :=
  updateChunkStatus st chunk_id .failed ("Training failed: " ++ error) now

/-- `mark_chunk_restored`. -/
def mark_chunk_restored (st : Manager) (chunk_id now : String) : Manager :=
  updateChunkStatus st chunk_id .restored "Data restored to RAG" now

/-- `create_chunk`: allocates the next id, writes the manifest and the
preserved documents, registers the chunk with status PENDING under the
current model, rewrites the registry and logs. -/
def create_chunk (st : Manager) (documents : List Doc)
    (character : Option String) (metadata : List (String × String))
    (now : String) : Manager × DataChunk :=
  let counter := st.chunk_counter + 1
  let chunk_id := chunkIdOf counter
  let chunk : DataChunk :=
    { chunk_id, created_at := now, status := .pending,
      model_identity_hash := st.current_model, lora_id := none,
      document_ids :=
        documents.enum.map (fun p => (dictGet p.2 "id").getD (Nat.repr p.1)),
      document_count := documents.length, character, metadata,
      history := [{ timestamp := now, action := "created",
                    details := Nat.repr documents.length ++ " documents" }] }
  let st1 := { st with
    chunk_counter := counter,
    manifests := dictSet st.manifests chunk_id chunk,
    chunk_docs := dictSet st.chunk_docs chunk_id documents,
    chunk_registry := dictSet st.chunk_registry chunk_id chunk }
  let st2 := logOp (saveChunkRegistry st1) "chunk_created"
    ("chunk_id=" ++ chunk_id) now
  (st2, chunk)

/-- `get_chunk_documents`: read `chunks/<id>/documents.json` if present. -/
def get_chunk_documents (st : Manager) (chunk_id : String) : Option (List Doc) :=
  dictGet st.chunk_docs chunk_id

/-- `get_chunks_by_status` (`list_chunks`): linear filter on status
and/or model. The `created_at`-descending display sort of the source is
omitted; no claim depends on output order here. -/
def get_chunks_by_status (st : Manager) (status : Option ChunkStatus)
    (model_hash : Option String) : List (String × DataChunk) :=
  st.chunk_registry.filter (fun p =>
    (match status with
     | some s => decide (p.2.status = s)
     | none => true) &&
    (match model_hash with
     | some m => decide (p.2.model_identity_hash = some m)
     | none => true))

/-- The `can_restore` flag of `get_restorable_chunks`: trained for a
different model, or failed, or already restored. -/
def canRestore (target : Option String) (ch : DataChunk) : Bool :=
  if ch.status = .trained ∧ ch.model_identity_hash ≠ target then true
  else if ch.status = .failed then true
  else if ch.status = .restored then true
  else false

/-- `get_restorable_chunks`: chunks trained for a different model, or
failed, or already restored — provided their `documents.json` exists.
The informational `restore_reason` annotation of the source is omitted. -/
def get_restorable_chunks (st : Manager)
    (model_identity_hash : Option String) : List (String × DataChunk) :=
  let target := pyOrStr model_identity_hash st.current_model
  st.chunk_registry.filterMap (fun p =>
    if canRestore target p.2 ∧ (dictGet st.chunk_docs p.1).isSome then some p
    else none)

/-! ### LoRA management -/

/-- `get_compatible_loras`: non-deleted adapters bound to the target (or
current) model. Display sort omitted as above. -/
def get_compatible_loras (st : Manager)
    (model_identity_hash : Option String) : List (String × LoRARecord) :=
  match pyOrStr model_identity_hash st.current_model with
  | none => []
  | some target =>
      if target = "" then []
      else st.lora_registry.filter (fun p =>
        decide (p.2.model_identity_hash = some target) &&
        decide (p.2.status ≠ .deleted))

/-- `register_lora`: allocates the next adapter id bound to the current
model, snapshots the model's display name, records the adapter, appends
its id to the model's `lora_ids`, marks each listed chunk TRAINED, and
logs. The artifact file copy is not modelled; `model_type` (taken from
the unmodelled identity sub-record) is carried as `none`. -/
def register_lora (st : Manager) (chunk_ids : List String)
    (training_config metrics : List (String × String)) (now : String) :
    Manager × LoRARecord :=
  let counter := st.lora_counter + 1
  let lora_id := loraIdOf counter
  let model_info := st.current_model.bind (fun c => dictGet st.known_models c)
  let record : LoRARecord :=
    { lora_id, created_at := now, model_identity_hash := st.current_model,
      model_name := model_info.map (fun m => m.friendly_name),
      model_type := none, chunk_ids,
      path := some ("model_" ++
        (match st.current_model with | some c => c | none => "None") ++
        "/" ++ lora_id),
      status := .active, training_config, metrics, notes := "",
      unusable_reason := none, marked_unusable_at := none, deleted_at := none }
  let st1 := { st with lora_counter := counter,
                       lora_registry := dictSet st.lora_registry lora_id record }
  let st2 :=
    match st.current_model with
    | some cur =>
        let known' := dictModify st1.known_models cur (fun m =>
          if lora_id ∈ m.lora_ids then m
          else { m with lora_ids := m.lora_ids ++ [lora_id] })
        if dictMem st1.known_models cur then { st1 with known_models := known' }
        else st1
    | none => st1
  let st3 := chunk_ids.foldl
    (fun acc cid => mark_chunk_trained acc cid lora_id now) st2
  (logOp st3 "lora_registered" ("lora_id=" ++ lora_id) now, record)

/-- `mark_lora_unusable`: when the adapter exists, set status
`unusable` with the reason and timestamp, persist, and log. -/
def mark_lora_unusable (st : Manager) (lora_id reason now : String) : Manager :=
  if dictMem st.lora_registry lora_id then
    let reg' := dictModify st.lora_registry lora_id (fun r =>
      { r with status := .unusable, unusable_reason := some reason,
               marked_unusable_at := some now })
    logOp { st with lora_registry := reg' } "lora_marked_unusable"
      ("lora_id=" ++ lora_id ++ ";reason=" ++ reason) now
  else st

/-- `delete_lora`: mark deleted (artifact file removal not modelled),
persist, log; returns whether the adapter existed. -/
def delete_lora (st : Manager) (lora_id now : String) : Manager × Bool :=
  if dictMem st.lora_registry lora_id then
    let reg' := dictModify st.lora_registry lora_id (fun r =>
      { r with status := .deleted, deleted_at := some now })
    (logOp { st with lora_registry := reg' } "lora_deleted"
      ("lora_id=" ++ lora_id) now, true)
  else (st, false)

/-! ### Model switch -/

/-- The invalidation pass of `handle_model_switch`: iterate the snapshot
of the adapter registry; every adapter `active` against `previous` is
marked unusable (reason `"Model changed from <previous> to <new>"`),
collecting the mutated records in iteration order. -/
def switchMark (previous new_hash now : String) (st : Manager) :
    List (String × LoRARecord) → Manager × List LoRARecord
  | [] => (st, [])
  | p :: rest =>
      if p.2.model_identity_hash = some previous ∧ p.2.status = .active then
        let st' := mark_lora_unusable st p.1
          ("Model changed from " ++ previous ++ " to " ++ new_hash) now
        let r := switchMark previous new_hash now st' rest
        (r.1, ((dictGet st'.lora_registry p.1).getD p.2) :: r.2)
      else switchMark previous new_hash now st rest

/-- The record produced by marking adapter `r` unusable during a switch
from `previous` to `new_hash`. -/
def markedLora (previous new_hash now : String) (r : LoRARecord) : LoRARecord :=
  { r with status := .unusable,
           unusable_reason :=
             some ("Model changed from " ++ previous ++ " to " ++ new_hash),
           marked_unusable_at := some now }

/-- The invalidation condition of the switch loop: active and bound to
the previous model. -/
def switchCond (previous : String) (r : LoRARecord) : Prop :=
  r.model_identity_hash = some previous ∧ r.status = .active

instance (p : String) (r : LoRARecord) : Decidable (switchCond p r) :=
  inferInstanceAs (Decidable (_ ∧ _))

/-- The summary returned by `handle_model_switch` (one record for both
the changed and the unchanged branch, as the source returns dicts). -/
structure SwitchResult where
  changed : Bool
  message : String
  previous_model : Option String
  new_model : Option String
  unusable_loras : List String
  unusable_lora_count : Nat
  restorable_chunks : List String
  restorable_chunk_count : Nat
  restorable_document_count : Nat
  compatible_loras : List String
  compatible_lora_count : Nat
  action_needed : Bool
deriving DecidableEq, Repr

/-- `handle_model_switch`: register the model; when it changed, mark
every adapter active against the previous model unusable, then compute
restorable chunks and compatible adapters for the new model. -/
def handle_model_switch (st : Manager) (identity_hash name : String)
    (friendly_name : Option String) (now : String) : Manager × SwitchResult :=
  let previous_model := st.current_model
  let rm := register_model st identity_hash name friendly_name now
  let st1 := rm.1
  let reg := rm.2
  if !reg.model_changed.truthy then
    (st1, { changed := false, message := "Same model detected, no changes needed",
            previous_model := none, new_model := none,
            unusable_loras := [], unusable_lora_count := 0,
            restorable_chunks := [], restorable_chunk_count := 0,
            restorable_document_count := 0, compatible_loras := [],
            compatible_lora_count := 0, action_needed := false })
  else
    let new_model_hash := reg.identity_hash
    let marked :=
      match previous_model with
      | some p =>
          if p = "" then (st1, [])
          else switchMark p new_model_hash now st1 st1.lora_registry
      | none => (st1, [])
    let st2 := marked.1
    let unusable := marked.2
    let restorable := get_restorable_chunks st2 (some new_model_hash)
    let compatible := get_compatible_loras st2 (some new_model_hash)
    let result : SwitchResult :=
      { changed := true, message := "", previous_model,
        new_model := some new_model_hash,
        unusable_loras := unusable.map (fun l => l.lora_id),
        unusable_lora_count := unusable.length,
        restorable_chunks := restorable.map (fun c => c.1),
        restorable_chunk_count := restorable.length,
        restorable_document_count :=
          (restorable.map (fun c => c.2.document_count)).sum,
        compatible_loras := compatible.map (fun l => l.2.lora_id),
        compatible_lora_count := compatible.length,
        action_needed := decide (0 < restorable.length) }
    (logOp st2 "model_switch" ("new_model=" ++ new_model_hash) now, result)

/-! ### Restoration -/

/-- Result of `restore_chunks_to_rag`. -/
structure RestoreResult where
  restored_chunks : List String
  failed_chunks : List String
  total_documents : Nat
  documents : List Doc
deriving DecidableEq, Repr

/-- `if documents:` — truthiness of the read payload (a missing file or
an empty list are both falsy). -/
def truthyDocs : Option (List Doc) → Bool
  | some (_ :: _) => true
  | _ => false

/-- The restoration loop: per chunk, read the preserved documents; when
truthy, concatenate them, transition the chunk to RESTORED and record it
under `restored`; otherwise record it under `failed` and continue. -/
def restoreLoop (st : Manager) (now : String) :
    List String → Manager × List Doc × List String × List String
  | [] => (st, [], [], [])
  | cid :: rest =>
    let docs := get_chunk_documents st cid
    if truthyDocs docs then
      let st' := mark_chunk_restored st cid now
      let r := restoreLoop st' now rest
      (r.1, docs.getD [] ++ r.2.1, cid :: r.2.2.1, r.2.2.2)
    else
      let r := restoreLoop st now rest
      (r.1, r.2.1, r.2.2.1, cid :: r.2.2.2)

/-- `restore_chunks_to_rag`: when `chunk_ids` is absent, select every
currently restorable chunk; run the loop; log; return the aggregate. -/
def restore_chunks_to_rag (st : Manager) (chunk_ids : Option (List String))
    (now : String) : Manager × RestoreResult :=
  let ids :=
    match chunk_ids with
    | none => (get_restorable_chunks st none).map (fun c => c.1)
    | some l => l
  let r := restoreLoop st now ids
  let result : RestoreResult :=
    { restored_chunks := r.2.2.1, failed_chunks := r.2.2.2,
      total_documents := r.2.1.length, documents := r.2.1 }
  (logOp r.1 "chunks_restored"
     ("restored=" ++ Nat.repr r.2.2.1.length ++
      ";failed=" ++ Nat.repr r.2.2.2.length) now, result)

/-! ### Fingerprinter (`ModelFingerprint`)

Files are byte lists; `hashlib` digests are abstracted as a function
`hex : List Nat → String` applied to the concatenation of all `update`
payloads (the semantics of incremental hashing). -/

/-- The byte payload of `str(file_size).encode()`. -/
def sizeBytes (n : Nat) : List Nat := (Nat.repr n).toList.map Char.toNat

/-- `_compute_partial_checksum`: hash a 64 MiB window at the file start,
one from the middle (`file_size // 2`), one at the end
(`max(0, file_size - sample)`), then the decimal byte size; prefix the
digest with `partial_`. -/
def compute_partial_checksum (hex : List Nat → String) (file : List Nat)
    (file_size : Nat) : String :=
  let sample_size := 64 * 1024 * 1024
  let beginning := file.take sample_size
  let middle := (file.drop (file_size / 2)).take sample_size
  let ending := (file.drop (file_size - sample_size)).take sample_size
  "partial_" ++ hex (beginning ++ middle ++ ending ++ sizeBytes file_size)

/-- The read loop of `compute_file_checksum`: successive
`f.read(chunk_size)` payloads with the source's `chunk_size = 8192 * 1024`. -/
def streamRead (file : List Nat) : List (List Nat) :=
  if file = [] then []
  else file.take (8192 * 1024) :: streamRead (file.drop (8192 * 1024))
termination_by file.length
decreasing_by
  simp only [List.length_drop]
  exact Nat.sub_lt (List.length_pos.mpr (by assumption)) (by norm_num)

/-- `compute_file_checksum`: files over 10 GiB take the partial scheme;
otherwise the digest of the streamed 8 MiB chunks. -/
def compute_file_checksum (hex : List Nat → String) (file : List Nat) : String :=
  if 10 * 1024 * 1024 * 1024 < file.length then
    compute_partial_checksum hex file file.length
  else
    hex (streamRead file).flatten

/-! ### Core operation alphabet

The user-visible operations as a step alphabet, for stating properties
of every crash-free operation sequence. -/

/-- One core operation with its inputs (timestamps explicit). -/
inductive Op where
  | register_model (identity_hash name : String) (friendly_name : Option String) (now : String)
  | handle_model_switch (identity_hash name : String) (friendly_name : Option String) (now : String)
  | register_lora (chunk_ids : List String) (training_config metrics : List (String × String)) (now : String)
  | mark_lora_unusable (lora_id reason now : String)
  | delete_lora (lora_id now : String)
  | create_chunk (documents : List Doc) (character : Option String) (metadata : List (String × String)) (now : String)
  | transition (chunk_id : String) (status : ChunkStatus) (details now : String)
  | mark_chunk_training (chunk_id now : String)
  | mark_chunk_trained (chunk_id lora_id now : String)
  | mark_chunk_failed (chunk_id error now : String)
  | mark_chunk_restored (chunk_id now : String)
  | restore_chunks (chunk_ids : Option (List String)) (now : String)
deriving DecidableEq, Repr

/-- Apply one operation to the state (results discarded). -/
def applyOp (st : Manager) : Op → Manager
  | .register_model h n f now => (register_model st h n f now).1
  | .handle_model_switch h n f now => (handle_model_switch st h n f now).1
  | .register_lora cs cfg m now => (register_lora st cs cfg m now).1
  | .mark_lora_unusable l r now => mark_lora_unusable st l r now
  | .delete_lora l now => (delete_lora st l now).1
  | .create_chunk d c m now => (create_chunk st d c m now).1
  | .transition c s d now => updateChunkStatus st c s d now
  | .mark_chunk_training c now => mark_chunk_training st c now
  | .mark_chunk_trained c l now => mark_chunk_trained st c l now
  | .mark_chunk_failed c e now => mark_chunk_failed st c e now
  | .mark_chunk_restored c now => mark_chunk_restored st c now
  | .restore_chunks cs now => (restore_chunks_to_rag st cs now).1

/-- Run a sequence of operations. -/
def run (st : Manager) : List Op → Manager
  | [] => st
  | op :: rest => run (applyOp st op) rest

/-- Operation sequences under which the adapter–model coupling can hold:
model changes go through `handle_model_switch` (never a bare
`register_model`), and identity hashes are non-empty (they are hex
digests in the source). -/
def GoodOp : Op → Prop
  | .register_model _ _ _ _ => False
  | .handle_model_switch h _ _ _ => h ≠ ""
  | _ => True

instance : DecidablePred GoodOp := fun op => by
  cases op <;> simp only [GoodOp] <;> infer_instance

/-- Spec §8 invariant 7, weakened by the slip the code actually has:
every adapter record that is not deleted is either bound to the current
model, or unusable, or carries no model binding at all. -/
def adapterCoupling (st : Manager) : Prop :=
  ∀ pr ∈ st.lora_registry, pr.2.status ≠ .deleted →
    pr.2.model_identity_hash = st.current_model ∨ pr.2.status = .unusable ∨
    pr.2.model_identity_hash = none

instance (st : Manager) : Decidable (adapterCoupling st) := by
  unfold adapterCoupling; infer_instance

/-! ## Association-list (dict) lemmas -/

theorem dictGet_cons {α} {p : String × α} {t : List (String × α)} {k : String} :
    dictGet (p :: t) k = if p.1 = k then some p.2 else dictGet t k := by
  by_cases h : p.1 = k <;> simp [dictGet, List.find?_cons, h]

theorem dictMem_cons {α} {p : String × α} {t : List (String × α)} {k : String} :
    dictMem (p :: t) k = (p.1 = k || dictMem t k) := by
  simp [dictMem]

theorem dictMem_iff_get {α} {l : List (String × α)} {k : String} :
    dictMem l k = true ↔ ∃ v, dictGet l k = some v := by
  induction l with
  | nil => simp [dictMem, dictGet]
  | cons p t ih =>
      by_cases h : p.1 = k <;>
        simp [dictMem_cons, dictGet_cons, h, ih]

theorem dictGet_eq_none_of_not_mem {α} {l : List (String × α)} {k : String}
    (h : dictMem l k = false) : dictGet l k = none := by
  cases hg : dictGet l k with
  | none => rfl
  | some v =>
      have := dictMem_iff_get.mpr ⟨v, hg⟩
      rw [h] at this
      cases this

theorem dictGet_append {α} {l m : List (String × α)} {k : String} :
    dictGet (l ++ m) k =
      match dictGet l k with
      | some v => some v
      | none => dictGet m k := by
  induction l with
  | nil => simp [dictGet]
  | cons p t ih =>
      by_cases h : p.1 = k <;>
        simp [List.cons_append, dictGet_cons, h, ih]

theorem dictGet_mem {α} {l : List (String × α)} {k : String} {v : α}
    (h : dictGet l k = some v) : (k, v) ∈ l := by
  induction l with
  | nil => simp [dictGet] at h
  | cons p t ih =>
      obtain ⟨a, b⟩ := p
      rw [dictGet_cons] at h
      by_cases hk : a = k
      · rw [if_pos hk] at h
        have hv := Option.some.inj h
        subst hv
        subst hk
        exact List.mem_cons_self _ _
      · rw [if_neg hk] at h
        exact List.mem_cons_of_mem _ (ih h)

theorem dictGet_of_mem_nodup {α} {l : List (String × α)} {k : String} {v : α}
    (hnd : (l.map Prod.fst).Nodup) (hmem : (k, v) ∈ l) :
    dictGet l k = some v := by
  induction l with
  | nil => simp at hmem
  | cons p t ih =>
      simp only [List.map_cons, List.nodup_cons] at hnd
      rcases List.mem_cons.mp hmem with h | h
      · subst h; simp [dictGet_cons]
      · have hne : p.1 ≠ k := by
          intro e
          exact hnd.1 (e ▸ List.mem_map_of_mem Prod.fst h)
        rw [dictGet_cons, if_neg hne]
        exact ih hnd.2 h

theorem dictModify_cons {α} {p : String × α} {t : List (String × α)}
    {k : String} {f : α → α} :
    dictModify (p :: t) k f =
      (if p.1 = k then (p.1, f p.2) else p) :: dictModify t k f := by
  simp [dictModify]

theorem dictModify_get_self {α} {l : List (String × α)} {k : String}
    {f : α → α} : dictGet (dictModify l k f) k = (dictGet l k).map f := by
  induction l with
  | nil => simp [dictModify, dictGet]
  | cons p t ih =>
      rw [dictModify_cons]
      by_cases h : p.1 = k
      · simp [dictGet_cons, h]
      · simp [dictGet_cons, h, ih]

theorem dictModify_get_ne {α} {l : List (String × α)} {k k' : String}
    {f : α → α} (h : k' ≠ k) :
    dictGet (dictModify l k f) k' = dictGet l k' := by
  induction l with
  | nil => simp [dictModify, dictGet]
  | cons p t ih =>
      rw [dictModify_cons]
      by_cases hp : p.1 = k
      · have hp' : p.1 ≠ k' := fun e => h (e.symm.trans hp)
        simp [dictGet_cons, hp, hp', ih, h, Ne.symm h]
      · by_cases hp' : p.1 = k' <;> simp [dictGet_cons, hp, hp', ih, h, Ne.symm h]

theorem dictModify_keys {α} {l : List (String × α)} {k : String} {f : α → α} :
    (dictModify l k f).map Prod.fst = l.map Prod.fst := by
  induction l with
  | nil => simp [dictModify]
  | cons p t ih =>
      rw [dictModify_cons]
      by_cases h : p.1 = k <;> simp [h, ih]

theorem dictMem_modify {α} {l : List (String × α)} {k k' : String} {f : α → α} :
    dictMem (dictModify l k f) k' = dictMem l k' := by
  induction l with
  | nil => simp [dictModify]
  | cons p t ih =>
      rw [dictModify_cons]
      by_cases h : p.1 = k <;> simp [dictMem_cons, h, ih]

theorem mem_dictModify {α} {l : List (String × α)} {k : String} {f : α → α}
    {pr : String × α} (h : pr ∈ dictModify l k f) :
    pr ∈ l ∨ ∃ r, (k, r) ∈ l ∧ pr = (k, f r) := by
  induction l with
  | nil => simp [dictModify] at h
  | cons p t ih =>
      rw [dictModify_cons] at h
      rcases List.mem_cons.mp h with h | h
      · by_cases hp : p.1 = k
        · rw [if_pos hp] at h
          right
          refine ⟨p.2, ?_, by rw [h, hp]⟩
          rw [← hp]
          exact List.mem_cons_self _ _
        · rw [if_neg hp] at h
          left
          rw [h]
          exact List.mem_cons_self _ _
      · rcases ih h with h' | ⟨r, hr, he⟩
        · left; exact List.mem_cons_of_mem _ h'
        · right; exact ⟨r, List.mem_cons_of_mem _ hr, he⟩

theorem dictSet_eq_modify_of_mem {α} {l : List (String × α)} {k : String}
    {v : α} (h : dictMem l k = true) :
    dictSet l k v = dictModify l k (fun _ => v) := by
  unfold dictSet dictModify
  rw [if_pos h]
  apply List.map_congr_left
  intro p _
  by_cases hp : p.1 = k
  · simp [hp]
  · simp [hp]

theorem dictGet_set_self {α} {l : List (String × α)} {k : String} {v : α} :
    dictGet (dictSet l k v) k = some v := by
  by_cases h : dictMem l k = true
  · rw [dictSet_eq_modify_of_mem h, dictModify_get_self]
    rcases dictMem_iff_get.mp h with ⟨w, hw⟩
    rw [hw]
    rfl
  · unfold dictSet
    rw [if_neg h, dictGet_append,
        dictGet_eq_none_of_not_mem (Bool.not_eq_true _ ▸ h)]
    simp [dictGet_cons]

theorem dictGet_set_ne {α} {l : List (String × α)} {k k' : String} {v : α}
    (h : k' ≠ k) : dictGet (dictSet l k v) k' = dictGet l k' := by
  by_cases hm : dictMem l k = true
  · rw [dictSet_eq_modify_of_mem hm, dictModify_get_ne h]
  · unfold dictSet
    rw [if_neg hm, dictGet_append]
    have : dictGet [(k, v)] k' = none := by
      rw [dictGet_cons, if_neg (fun e => h e.symm)]
      rfl
    rw [this]
    cases dictGet l k' <;> rfl

theorem mem_dictSet {α} {l : List (String × α)} {k : String} {v : α}
    {pr : String × α} (h : pr ∈ dictSet l k v) : pr = (k, v) ∨ pr ∈ l := by
  by_cases hm : dictMem l k = true
  · rw [dictSet_eq_modify_of_mem hm] at h
    rcases mem_dictModify h with h' | ⟨r, _, he⟩
    · right; exact h'
    · left; exact he
  · unfold dictSet at h
    rw [if_neg hm] at h
    rcases List.mem_append.mp h with h' | h'
    · right; exact h'
    · left; simpa using h'

theorem dictSet_keys_nodup {α} {l : List (String × α)} {k : String} {v : α}
    (h : (l.map Prod.fst).Nodup) : ((dictSet l k v).map Prod.fst).Nodup := by
  by_cases hm : dictMem l k = true
  · rw [dictSet_eq_modify_of_mem hm, dictModify_keys]
    exact h
  · unfold dictSet
    rw [if_neg hm, List.map_append]
    simp only [List.map_cons, List.map_nil]
    rw [List.nodup_append]
    refine ⟨h, List.nodup_singleton _, ?_⟩
    intro a ha hb
    simp only [List.mem_singleton] at hb
    subst hb
    rcases List.mem_map.mp ha with ⟨p, hp, he⟩
    apply hm
    unfold dictMem
    rw [List.any_eq_true]
    exact ⟨p, hp, by simp [he]⟩

/-! ## Decimal formatting lemmas (injectivity of `chunk_NNNN`) -/

/-- Value of a little-endian digit list. -/
def ofDLE : List Nat → Nat
  | [] => 0
  | d :: ds => d + 10 * ofDLE ds

theorem ofDLE_natDigitsAux : ∀ fuel n, n ≤ fuel → ofDLE (natDigitsAux fuel n) = n := by
  intro fuel
  induction fuel with
  | zero =>
      intro n hn
      interval_cases n
      rfl
  | succ f ih =>
      intro n hn
      cases n with
      | zero => rfl
      | succ m =>
          have hle : (m + 1) / 10 ≤ f := by
            have h1 : (m + 1) / 10 < m + 1 := Nat.div_lt_self (Nat.succ_pos m) (by norm_num)
            omega
          show ofDLE ((m + 1) % 10 :: natDigitsAux f ((m + 1) / 10)) = m + 1
          simp only [ofDLE, ih _ hle]
          omega

theorem ofDLE_append_replicate (l : List Nat) (k : Nat) :
    ofDLE (l ++ List.replicate k 0) = ofDLE l := by
  induction l with
  | nil =>
      simp only [List.nil_append]
      induction k with
      | zero => rfl
      | succ k ih => simpa [List.replicate, ofDLE] using ih
  | cons d ds ih => simp [ofDLE, ih]

theorem ofDLE_pad4LE_natDigits (n : Nat) : ofDLE (pad4LE (natDigits n)) = n := by
  rw [pad4LE, ofDLE_append_replicate]
  exact ofDLE_natDigitsAux n n le_rfl

theorem natDigitsAux_lt : ∀ fuel n, ∀ d ∈ natDigitsAux fuel n, d < 10 := by
  intro fuel
  induction fuel with
  | zero => intro n d hd; simp [natDigitsAux] at hd
  | succ f ih =>
      intro n d hd
      cases n with
      | zero => simp [natDigitsAux] at hd
      | succ m =>
          simp only [natDigitsAux, List.mem_cons] at hd
          rcases hd with h | h
          · subst h; exact Nat.mod_lt _ (by norm_num)
          · exact ih _ _ h

theorem pad4LE_natDigits_lt (n : Nat) : ∀ d ∈ pad4LE (natDigits n), d < 10 := by
  intro d hd
  rcases List.mem_append.mp hd with h | h
  · exact natDigitsAux_lt n n d h
  · rw [List.eq_of_mem_replicate h]; norm_num

theorem digitChar_inj_lt : ∀ a, a < 10 → ∀ b, b < 10 →
    Nat.digitChar a = Nat.digitChar b → a = b := by decide

theorem map_digitChar_inj : ∀ l₁ l₂ : List Nat, (∀ x ∈ l₁, x < 10) →
    (∀ x ∈ l₂, x < 10) → l₁.map Nat.digitChar = l₂.map Nat.digitChar → l₁ = l₂ := by
  intro l₁
  induction l₁ with
  | nil =>
      intro l₂ _ _ h
      cases l₂ with
      | nil => rfl
      | cons b t => simp at h
  | cons a t ih =>
      intro l₂ h₁ h₂ h
      cases l₂ with
      | nil => simp at h
      | cons b t₂ =>
          simp only [List.map_cons, List.cons.injEq] at h
          have ha : a = b :=
            digitChar_inj_lt a (h₁ a (List.mem_cons_self _ _))
              b (h₂ b (List.mem_cons_self _ _)) h.1
          have ht : t = t₂ :=
            ih t₂ (fun x hx => h₁ x (List.mem_cons_of_mem _ hx))
              (fun x hx => h₂ x (List.mem_cons_of_mem _ hx)) h.2
          rw [ha, ht]

theorem natPad4_inj {m n : Nat} (h : natPad4 m = natPad4 n) : m = n := by
  unfold natPad4 at h
  have h' : (pad4LE (natDigits m)).reverse = (pad4LE (natDigits n)).reverse :=
    map_digitChar_inj _ _
      (fun x hx => pad4LE_natDigits_lt m x (List.mem_reverse.mp hx))
      (fun x hx => pad4LE_natDigits_lt n x (List.mem_reverse.mp hx)) h
  have h'' : pad4LE (natDigits m) = pad4LE (natDigits n) :=
    List.reverse_injective h'
  calc m = ofDLE (pad4LE (natDigits m)) := (ofDLE_pad4LE_natDigits m).symm
    _ = ofDLE (pad4LE (natDigits n)) := by rw [h'']
    _ = n := ofDLE_pad4LE_natDigits n

theorem chunkIdOf_inj {m n : Nat} (h : chunkIdOf m = chunkIdOf n) : m = n := by
  unfold chunkIdOf at h
  have hd : ('c' :: 'h' :: 'u' :: 'n' :: 'k' :: '_' :: natPad4 m)
      = ('c' :: 'h' :: 'u' :: 'n' :: 'k' :: '_' :: natPad4 n) :=
    congrArg String.data h
  simp only [List.cons.injEq, true_and] at hd
  exact natPad4_inj hd

/-! ## Frame lemmas for the chunk transition helper -/

theorem updateChunkStatus_not_mem {st : Manager} {id : String}
    {s : ChunkStatus} {d now : String}
    (h : dictMem st.chunk_registry id = false) :
    updateChunkStatus st id s d now = st := by
  unfold updateChunkStatus
  simp [h]

theorem updateChunkStatus_fields (st : Manager) (id : String)
    (s : ChunkStatus) (d now : String) :
    (updateChunkStatus st id s d now).lora_registry = st.lora_registry ∧
    (updateChunkStatus st id s d now).known_models = st.known_models ∧
    (updateChunkStatus st id s d now).current_model = st.current_model ∧
    (updateChunkStatus st id s d now).chunk_counter = st.chunk_counter ∧
    (updateChunkStatus st id s d now).lora_counter = st.lora_counter ∧
    (updateChunkStatus st id s d now).chunk_docs = st.chunk_docs := by
  unfold updateChunkStatus saveChunkRegistry logOp
  dsimp only
  split
  · exact ⟨rfl, rfl, rfl, rfl, rfl, rfl⟩
  · split
    · split <;> exact ⟨rfl, rfl, rfl, rfl, rfl, rfl⟩
    · exact ⟨rfl, rfl, rfl, rfl, rfl, rfl⟩

theorem updateChunkStatus_registry (st : Manager) (id : String)
    (s : ChunkStatus) (d now : String)
    (h : dictMem st.chunk_registry id = true) :
    (updateChunkStatus st id s d now).chunk_registry =
      dictModify st.chunk_registry id (fun c =>
        { c with status := s,
                 history := c.history ++
                   [{ timestamp := now, action := s.str, details := d }] }) := by
  unfold updateChunkStatus saveChunkRegistry logOp
  rw [h]
  dsimp only
  split
  · rename_i hc; simp at hc
  · split
    · split <;> rfl
    · rfl

theorem updateChunkStatus_get_ne {st : Manager} {id : String}
    {s : ChunkStatus} {d now : String} {k : String} (h : k ≠ id) :
    dictGet (updateChunkStatus st id s d now).chunk_registry k =
      dictGet st.chunk_registry k := by
  cases hm : dictMem st.chunk_registry id with
  | false => rw [updateChunkStatus_not_mem hm]
  | true => rw [updateChunkStatus_registry st id s d now hm, dictModify_get_ne h]

theorem updateChunkStatus_mem {st : Manager} {id : String}
    {s : ChunkStatus} {d now : String} {k : String} :
    dictMem (updateChunkStatus st id s d now).chunk_registry k =
      dictMem st.chunk_registry k := by
  cases hm : dictMem st.chunk_registry id with
  | false => rw [updateChunkStatus_not_mem hm]
  | true => rw [updateChunkStatus_registry st id s d now hm, dictMem_modify]

theorem updateChunkStatus_manifests_ne {st : Manager} {id : String}
    {s : ChunkStatus} {d now : String} {k : String} (h : k ≠ id) :
    dictGet (updateChunkStatus st id s d now).manifests k =
      dictGet st.manifests k := by
  unfold updateChunkStatus saveChunkRegistry logOp
  dsimp only
  split
  · rfl
  · split
    · split
      · exact dictGet_set_ne h
      · rfl
    · rfl

theorem updateChunkStatus_registry_file {st : Manager} {id : String}
    {s : ChunkStatus} {d now : String}
    (h : dictMem st.chunk_registry id = true) :
    (updateChunkStatus st id s d now).chunk_registry_file =
      .parsed (updateChunkStatus st id s d now).chunk_registry
        st.chunk_counter := by
  rw [updateChunkStatus_registry st id s d now h]
  unfold updateChunkStatus saveChunkRegistry logOp
  rw [h]
  dsimp only
  split
  · rename_i hc; simp at hc
  · split
    · split <;> rfl
    · rfl

/-! ## Frame lemmas for the marking entry points and other operations -/

theorem mark_chunk_trained_fields (st : Manager) (id l now : String) :
    (mark_chunk_trained st id l now).lora_registry = st.lora_registry ∧
    (mark_chunk_trained st id l now).known_models = st.known_models ∧
    (mark_chunk_trained st id l now).current_model = st.current_model ∧
    (mark_chunk_trained st id l now).chunk_counter = st.chunk_counter ∧
    (mark_chunk_trained st id l now).lora_counter = st.lora_counter ∧
    (mark_chunk_trained st id l now).chunk_docs = st.chunk_docs := by
  unfold mark_chunk_trained
  dsimp only
  split <;> exact updateChunkStatus_fields _ id .trained _ now

theorem mark_chunk_trained_not_mem {st : Manager} {id l now : String}
    (h : dictMem st.chunk_registry id = false) :
    mark_chunk_trained st id l now = st := by
  unfold mark_chunk_trained
  dsimp only
  rw [if_neg (by simp [h]), updateChunkStatus_not_mem h]

theorem mark_chunk_trained_get_ne {st : Manager} {id l now k : String}
    (h : k ≠ id) :
    dictGet (mark_chunk_trained st id l now).chunk_registry k =
      dictGet st.chunk_registry k := by
  unfold mark_chunk_trained
  dsimp only
  split
  · rw [updateChunkStatus_get_ne h]
    dsimp only
    exact dictModify_get_ne h
  · exact updateChunkStatus_get_ne h

theorem mark_chunk_trained_manifests_ne {st : Manager} {id l now k : String}
    (h : k ≠ id) :
    dictGet (mark_chunk_trained st id l now).manifests k =
      dictGet st.manifests k := by
  unfold mark_chunk_trained
  dsimp only
  split <;> exact updateChunkStatus_manifests_ne h

theorem mark_lora_unusable_chunkFields (st : Manager) (l r now : String) :
    (mark_lora_unusable st l r now).chunk_registry = st.chunk_registry ∧
    (mark_lora_unusable st l r now).known_models = st.known_models ∧
    (mark_lora_unusable st l r now).current_model = st.current_model ∧
    (mark_lora_unusable st l r now).chunk_counter = st.chunk_counter ∧
    (mark_lora_unusable st l r now).lora_counter = st.lora_counter ∧
    (mark_lora_unusable st l r now).chunk_docs = st.chunk_docs ∧
    (mark_lora_unusable st l r now).manifests = st.manifests ∧
    (mark_lora_unusable st l r now).chunk_registry_file = st.chunk_registry_file := by
  unfold mark_lora_unusable logOp
  dsimp only
  split <;> exact ⟨rfl, rfl, rfl, rfl, rfl, rfl, rfl, rfl⟩

theorem mark_lora_unusable_registry {st : Manager} {l r now : String}
    (h : dictMem st.lora_registry l = true) :
    (mark_lora_unusable st l r now).lora_registry =
      dictModify st.lora_registry l (fun rec =>
        { rec with status := .unusable, unusable_reason := some r,
                   marked_unusable_at := some now }) := by
  unfold mark_lora_unusable logOp
  dsimp only
  rw [if_pos h]

theorem register_model_fields (st : Manager) (h n : String)
    (f : Option String) (now : String) :
    (register_model st h n f now).1.lora_registry = st.lora_registry ∧
    (register_model st h n f now).1.chunk_registry = st.chunk_registry ∧
    (register_model st h n f now).1.chunk_docs = st.chunk_docs ∧
    (register_model st h n f now).1.manifests = st.manifests ∧
    (register_model st h n f now).1.chunk_counter = st.chunk_counter ∧
    (register_model st h n f now).1.lora_counter = st.lora_counter ∧
    (register_model st h n f now).1.chunk_registry_file = st.chunk_registry_file ∧
    (register_model st h n f now).1.current_model = some h :=
  ⟨rfl, rfl, rfl, rfl, rfl, rfl, rfl, rfl⟩

/-! ## C2 — which chunks are restorable -/

theorem canRestore_iff (target : Option String) (ch : DataChunk) :
    canRestore target ch = true ↔
      (ch.status = .failed ∨ ch.status = .restored ∨
       (ch.status = .trained ∧ ch.model_identity_hash ≠ target)) := by
  unfold canRestore
  cases hs : ch.status <;>
    by_cases hm : ch.model_identity_hash = target <;>
      simp [hs, hm]

/-- C2: for every entry of the chunk registry and any target model hash
(defaulting to `current_model` when the argument is absent or falsy),
`get_restorable_chunks` includes the chunk iff its preserved-documents
file exists and its status is FAILED, or RESTORED, or TRAINED with a
`model_identity_hash` different from the target. -/
theorem restorable_chunks_characterization (st : Manager)
    (arg : Option String) (id : String) (ch : DataChunk)
    (hmem : (id, ch) ∈ st.chunk_registry) :
    (id, ch) ∈ get_restorable_chunks st arg ↔
      ((dictGet st.chunk_docs id).isSome ∧
       (ch.status = .failed ∨ ch.status = .restored ∨
        (ch.status = .trained ∧
         ch.model_identity_hash ≠ pyOrStr arg st.current_model))) := by
  unfold get_restorable_chunks
  rw [List.mem_filterMap]
  constructor
  · rintro ⟨b, hb, hf⟩
    split at hf
    · rename_i hcond
      cases hf
      exact ⟨hcond.2, (canRestore_iff _ _).mp hcond.1⟩
    · cases hf
  · rintro ⟨hdocs, hstat⟩
    refine ⟨(id, ch), hmem, ?_⟩
    rw [if_pos ⟨(canRestore_iff _ _).mpr hstat, hdocs⟩]

/-- Closed instance of C2: a FAILED chunk with preserved documents is
reported restorable. -/
theorem restorable_chunks_characterization_witness :
    let ch : DataChunk :=
      { chunk_id := "chunk_0001", created_at := "t", status := .failed,
        model_identity_hash := none, lora_id := none, document_ids := [],
        document_count := 0, character := none, metadata := [], history := [] }
    let st : Manager :=
      { Manager.init with chunk_registry := [("chunk_0001", ch)],
                          chunk_docs := [("chunk_0001", [[("id", "d1")]])] }
    ("chunk_0001", ch) ∈ st.chunk_registry ∧
    (("chunk_0001", ch) ∈ get_restorable_chunks st none ↔
      ((dictGet st.chunk_docs "chunk_0001").isSome ∧
       (ch.status = .failed ∨ ch.status = .restored ∨
        (ch.status = .trained ∧
         ch.model_identity_hash ≠ pyOrStr none st.current_model)))) :=
  ⟨by decide,
   restorable_chunks_characterization _ none "chunk_0001" _ (by decide)⟩

/-! ## C6 — the `model_changed` flag of `register_model` -/

/-- C6 as stated is false: on a fresh install (`previous_model` absent),
`register_model` returns `model_changed = None` (the Python value of
`None and ...`), not the boolean `false`. -/
theorem register_model_changed_counterexample :
    (register_model Manager.init "a1b2" "a" none "t").2.model_changed
        = PyVal.vnone ∧
    PyVal.vnone ≠ PyVal.vbool false := by
  exact ⟨rfl, by decide⟩

/-- C6 (amended): provided the previously current model hash is not the
empty string (identity hashes are non-empty digests), the returned
`model_changed` is truthy exactly when `previous_model ≠ null ∧
previous_model ≠ identity_hash`; when no model was ever registered the
returned value is `None` (null), not the boolean `false`. -/
theorem register_model_changed (st : Manager) (h name : String)
    (fname : Option String) (now : String)
    (hne : st.current_model ≠ some "") :
    ((register_model st h name fname now).2.model_changed.truthy =
      (decide (st.current_model ≠ none) &&
       decide (st.current_model ≠ some h))) ∧
    (st.current_model = none →
      (register_model st h name fname now).2.model_changed = PyVal.vnone) := by
  cases hc : st.current_model with
  | none => simp [register_model, PyVal.truthy, hc]
  | some p =>
      have hp : p ≠ "" := fun e => hne (by rw [hc, e])
      constructor
      · simp [register_model, PyVal.truthy, hc, hp]
      · intro hcn
        simp at hcn

/-- Closed instance of C6 (amended): after a first model `a1b2` is
current, registering a different model `c3d4` reports a truthy
`model_changed`. -/
theorem register_model_changed_witness :
    ((register_model Manager.init "a1b2" "a" none "t").1.current_model ≠ some "") ∧
    (((register_model (register_model Manager.init "a1b2" "a" none "t").1
        "c3d4" "c" none "t2").2.model_changed.truthy =
      (decide ((register_model Manager.init "a1b2" "a" none "t").1.current_model ≠ none) &&
       decide ((register_model Manager.init "a1b2" "a" none "t").1.current_model ≠ some "c3d4"))) ∧
     ((register_model Manager.init "a1b2" "a" none "t").1.current_model = none →
      (register_model (register_model Manager.init "a1b2" "a" none "t").1
        "c3d4" "c" none "t2").2.model_changed = PyVal.vnone)) :=
  ⟨by decide,
   register_model_changed (register_model Manager.init "a1b2" "a" none "t").1
     "c3d4" "c" none "t2" (by decide)⟩

/-! ## C7 — startup on a corrupt registry document -/

/-- C7 as stated is false: registry writes are not gated after loading a
corrupt document — the first mutation (here `create_chunk`) rewrites the
corrupt `chunk_registry.json`. -/
theorem corrupt_registry_counterexample :
    (create_chunk (Manager.initFrom (.corrupt "not json")) [] none [] "t").1.chunk_registry_file
      ≠ RegFile.corrupt "not json" := by
  decide

/-- C7 (amended): starting on an unparseable chunk-registry document,
the core behaves as if the registry were empty (`list_chunks` is empty)
and loading leaves the on-disk document untouched; but writes are not
gated — the first registry mutation overwrites the corrupt document with
the serialized in-memory registry. -/
theorem corrupt_registry_startup (raw : String) (documents : List Doc)
    (character : Option String) (metadata : List (String × String))
    (now : String) :
    get_chunks_by_status (Manager.initFrom (.corrupt raw)) none none = [] ∧
    (Manager.initFrom (.corrupt raw)).chunk_registry_file = .corrupt raw ∧
    (create_chunk (Manager.initFrom (.corrupt raw)) documents character
        metadata now).1.chunk_registry_file =
      .parsed
        (create_chunk (Manager.initFrom (.corrupt raw)) documents character
          metadata now).1.chunk_registry
        (create_chunk (Manager.initFrom (.corrupt raw)) documents character
          metadata now).1.chunk_counter :=
  ⟨rfl, rfl, rfl⟩

/-! ## C5 — the transition helper does not validate the matrix -/

/-- C5 as stated is false: `_update_chunk_status` performs no transition
validation — marking an ARCHIVED chunk as training simply overwrites its
status instead of rejecting the transition. -/
theorem transition_validation_counterexample :
    let ch : DataChunk :=
      { chunk_id := "chunk_0001", created_at := "t0", status := .archived,
        model_identity_hash := none, lora_id := none, document_ids := [],
        document_count := 0, character := none, metadata := [], history := [] }
    let st : Manager := { Manager.init with chunk_registry := [("chunk_0001", ch)] }
    ((dictGet st.chunk_registry "chunk_0001").map DataChunk.status
        = some ChunkStatus.archived) ∧
    ((dictGet (mark_chunk_training st "chunk_0001" "t1").chunk_registry
        "chunk_0001").map DataChunk.status = some ChunkStatus.training) :=
  ⟨by decide, by decide⟩

/-- C5 (amended): the transition helper validates nothing. For every
chunk present in the registry — whatever its current status, ARCHIVED
included — the requested status is applied unconditionally, a history
entry is appended, and the registry is rewritten; only an unknown chunk
id leaves the state completely unchanged (logged at warning level). -/
theorem update_chunk_status_applies (st : Manager) (id : String)
    (s : ChunkStatus) (d now : String) :
    (dictMem st.chunk_registry id = true →
      ∃ old, dictGet st.chunk_registry id = some old ∧
        dictGet (updateChunkStatus st id s d now).chunk_registry id =
          some { old with status := s,
                          history := old.history ++
                            [{ timestamp := now, action := s.str, details := d }] }) ∧
    (dictMem st.chunk_registry id = false →
      updateChunkStatus st id s d now = st) := by
  constructor
  · intro h
    rcases dictMem_iff_get.mp h with ⟨old, hold⟩
    refine ⟨old, hold, ?_⟩
    rw [updateChunkStatus_registry st id s d now h, dictModify_get_self, hold]
    rfl
  · exact updateChunkStatus_not_mem

/-- Closed instance of C5 (amended): an ARCHIVED chunk is overwritten to
the requested status with the history entry appended. -/
theorem update_chunk_status_applies_witness :
    let ch : DataChunk :=
      { chunk_id := "chunk_0001", created_at := "t0", status := .archived,
        model_identity_hash := none, lora_id := none, document_ids := [],
        document_count := 0, character := none, metadata := [], history := [] }
    let st : Manager := { Manager.init with chunk_registry := [("chunk_0001", ch)] }
    dictMem st.chunk_registry "chunk_0001" = true ∧
    ∃ old, dictGet st.chunk_registry "chunk_0001" = some old ∧
      dictGet (updateChunkStatus st "chunk_0001" .training "Training started"
          "t1").chunk_registry "chunk_0001" =
        some { old with status := .training,
                        history := old.history ++
                          [{ timestamp := "t1",
                             action := ChunkStatus.training.str,
                             details := "Training started" }] } :=
  ⟨by decide,
   (update_chunk_status_applies _ "chunk_0001" .training "Training started"
     "t1").1 (by decide)⟩

/-! ## C10 — frame properties of the four marking entry points -/

/-- C10: each marking entry point touches only the targeted chunk's
registry entry and manifest, never the chunk counter; `mark_chunk_trained`
changes only the `lora_id` field besides status and history; and when the
chunk id is unknown, the whole state (registry, manifests, operation log
included) is left unchanged. -/
theorem mark_ops_frame (st : Manager) (id lora error now : String) :
    (∀ k, k ≠ id →
      (dictGet (mark_chunk_training st id now).chunk_registry k
          = dictGet st.chunk_registry k ∧
       dictGet (mark_chunk_trained st id lora now).chunk_registry k
          = dictGet st.chunk_registry k ∧
       dictGet (mark_chunk_failed st id error now).chunk_registry k
          = dictGet st.chunk_registry k ∧
       dictGet (mark_chunk_restored st id now).chunk_registry k
          = dictGet st.chunk_registry k) ∧
      (dictGet (mark_chunk_training st id now).manifests k
          = dictGet st.manifests k ∧
       dictGet (mark_chunk_trained st id lora now).manifests k
          = dictGet st.manifests k ∧
       dictGet (mark_chunk_failed st id error now).manifests k
          = dictGet st.manifests k ∧
       dictGet (mark_chunk_restored st id now).manifests k
          = dictGet st.manifests k)) ∧
    ((mark_chunk_training st id now).chunk_counter = st.chunk_counter ∧
     (mark_chunk_trained st id lora now).chunk_counter = st.chunk_counter ∧
     (mark_chunk_failed st id error now).chunk_counter = st.chunk_counter ∧
     (mark_chunk_restored st id now).chunk_counter = st.chunk_counter) ∧
    (dictMem st.chunk_registry id = true →
      ∃ old, dictGet st.chunk_registry id = some old ∧
        dictGet (mark_chunk_trained st id lora now).chunk_registry id =
          some { old with status := .trained, lora_id := some lora,
                          history := old.history ++
                            [{ timestamp := now,
                               action := ChunkStatus.trained.str,
                               details := "Trained into LoRA " ++ lora }] }) ∧
    (dictMem st.chunk_registry id = false →
      mark_chunk_training st id now = st ∧
      mark_chunk_trained st id lora now = st ∧
      mark_chunk_failed st id error now = st ∧
      mark_chunk_restored st id now = st) := by
  refine ⟨?_, ?_, ?_, ?_⟩
  · intro k hk
    exact ⟨⟨updateChunkStatus_get_ne hk, mark_chunk_trained_get_ne hk,
            updateChunkStatus_get_ne hk, updateChunkStatus_get_ne hk⟩,
           ⟨updateChunkStatus_manifests_ne hk, mark_chunk_trained_manifests_ne hk,
            updateChunkStatus_manifests_ne hk, updateChunkStatus_manifests_ne hk⟩⟩
  · exact ⟨(updateChunkStatus_fields _ _ _ _ _).2.2.2.1,
           (mark_chunk_trained_fields _ _ _ _).2.2.2.1,
           (updateChunkStatus_fields _ _ _ _ _).2.2.2.1,
           (updateChunkStatus_fields _ _ _ _ _).2.2.2.1⟩
  · intro h
    rcases dictMem_iff_get.mp h with ⟨old, hold⟩
    refine ⟨old, hold, ?_⟩
    unfold mark_chunk_trained
    dsimp only
    rw [if_pos h]
    have hmem' : dictMem (dictModify st.chunk_registry id
        (fun c => { c with lora_id := some lora })) id = true := by
      rw [dictMem_modify]; exact h
    rw [updateChunkStatus_registry _ id .trained _ now
          (by exact hmem'),
        dictModify_get_self]
    dsimp only
    rw [dictModify_get_self, hold]
    rfl
  · intro h
    exact ⟨updateChunkStatus_not_mem h, mark_chunk_trained_not_mem h,
           updateChunkStatus_not_mem h, updateChunkStatus_not_mem h⟩

/-- Closed instance of C10: with one pending chunk registered, marking it
trained rewrites only that entry, and an unrelated key reads the same. -/
theorem mark_ops_frame_witness :
    let ch : DataChunk :=
      { chunk_id := "chunk_0001", created_at := "t0", status := .pending,
        model_identity_hash := none, lora_id := none, document_ids := [],
        document_count := 0, character := none, metadata := [], history := [] }
    let st : Manager := { Manager.init with chunk_registry := [("chunk_0001", ch)] }
    (dictGet (mark_chunk_trained st "chunk_0001" "lora_0001" "t1").chunk_registry
        "chunk_0002" = dictGet st.chunk_registry "chunk_0002") ∧
    (dictMem st.chunk_registry "chunk_0001" = true) ∧
    (∃ old, dictGet st.chunk_registry "chunk_0001" = some old ∧
      dictGet (mark_chunk_trained st "chunk_0001" "lora_0001" "t1").chunk_registry
          "chunk_0001" =
        some { old with status := .trained, lora_id := some "lora_0001",
                        history := old.history ++
                          [{ timestamp := "t1",
                             action := ChunkStatus.trained.str,
                             details := "Trained into LoRA " ++ "lora_0001" }] }) :=
  ⟨(((mark_ops_frame _ "chunk_0001" "lora_0001" "e" "t1").1 "chunk_0002"
      (by decide)).1).2.1,
   by decide,
   (mark_ops_frame _ "chunk_0001" "lora_0001" "e" "t1").2.2.1 (by decide)⟩

/-! ## C9 — full vs partial checksum -/

theorem streamRead_flatten : ∀ file : List Nat, (streamRead file).flatten = file := by
  intro file
  induction file using streamRead.induct with
  | case1 =>
      simp [streamRead]
  | case2 file hne ih =>
      rw [streamRead, if_neg hne]
      simp only [List.flatten_cons, ih]
      exact List.take_append_drop _ _

/-- C9: the checksum streams the whole file in 8 MiB chunks (so the
digest is over exactly the file's bytes) when the size is at most
10 GiB; above 10 GiB it digests three windows — file start, middle
(`size // 2`), end (`size - 64 MiB`) — followed by the decimal byte
size, with the literal `partial_` prefix; and in that regime each window
is exactly 64 MiB long. -/
theorem compute_file_checksum_spec (hex : List Nat → String) (file : List Nat) :
    (compute_file_checksum hex file =
      if 10 * 1024 * 1024 * 1024 < file.length then
        "partial_" ++ hex (file.take (64 * 1024 * 1024) ++
          (file.drop (file.length / 2)).take (64 * 1024 * 1024) ++
          (file.drop (file.length - 64 * 1024 * 1024)).take (64 * 1024 * 1024) ++
          sizeBytes file.length)
      else hex file) ∧
    (10 * 1024 * 1024 * 1024 < file.length →
      ((file.take (64 * 1024 * 1024)).length = 64 * 1024 * 1024 ∧
       ((file.drop (file.length / 2)).take (64 * 1024 * 1024)).length
          = 64 * 1024 * 1024 ∧
       ((file.drop (file.length - 64 * 1024 * 1024)).take (64 * 1024 * 1024)).length
          = 64 * 1024 * 1024)) := by
  constructor
  · unfold compute_file_checksum compute_partial_checksum
    split
    · rfl
    · rw [streamRead_flatten]
  · intro h
    refine ⟨?_, ?_, ?_⟩ <;>
      simp only [List.length_take, List.length_drop] <;> omega

/-- Closed instance of C9: a file one byte over 10 GiB falls into the
partial regime and all three windows are full 64 MiB reads. -/
theorem compute_file_checksum_spec_witness :
    (10 * 1024 * 1024 * 1024
        < (List.replicate (10 * 1024 * 1024 * 1024 + 1) (0 : Nat)).length) ∧
    (((List.replicate (10 * 1024 * 1024 * 1024 + 1) (0 : Nat)).take
        (64 * 1024 * 1024)).length = 64 * 1024 * 1024 ∧
     (((List.replicate (10 * 1024 * 1024 * 1024 + 1) (0 : Nat)).drop
        ((List.replicate (10 * 1024 * 1024 * 1024 + 1) (0 : Nat)).length / 2)).take
        (64 * 1024 * 1024)).length = 64 * 1024 * 1024 ∧
     (((List.replicate (10 * 1024 * 1024 * 1024 + 1) (0 : Nat)).drop
        ((List.replicate (10 * 1024 * 1024 * 1024 + 1) (0 : Nat)).length
          - 64 * 1024 * 1024)).take
        (64 * 1024 * 1024)).length = 64 * 1024 * 1024) :=
  ⟨by rw [List.length_replicate]; omega,
   (compute_file_checksum_spec (fun _ => "") _).2
     (by rw [List.length_replicate]; omega)⟩

/-! ## C3 — restoration returns the preserved documents -/

theorem dictMem_of_mem {α} {l : List (String × α)} {pr : String × α}
    (h : pr ∈ l) : dictMem l pr.1 = true := by
  unfold dictMem
  rw [List.any_eq_true]
  exact ⟨pr, h, by simp⟩

theorem updateChunkStatus_status_self {st : Manager} {id : String}
    {s : ChunkStatus} {d now : String}
    (h : dictMem st.chunk_registry id = true) :
    (dictGet (updateChunkStatus st id s d now).chunk_registry id).map
        DataChunk.status = some s := by
  rw [updateChunkStatus_registry st id s d now h, dictModify_get_self]
  rcases dictMem_iff_get.mp h with ⟨old, hold⟩
  rw [hold]
  rfl

theorem updateChunkStatus_restored_persist {st : Manager} {id d now k : String}
    (h : (dictGet st.chunk_registry k).map DataChunk.status
      = some ChunkStatus.restored) :
    (dictGet (updateChunkStatus st id .restored d now).chunk_registry k).map
        DataChunk.status = some ChunkStatus.restored := by
  by_cases hk : k = id
  · subst hk
    cases hm : dictMem st.chunk_registry k with
    | false => rw [updateChunkStatus_not_mem hm]; exact h
    | true => exact updateChunkStatus_status_self hm
  · rw [updateChunkStatus_get_ne hk]
    exact h

theorem restoreLoop_spec (now : String) :
    ∀ (ids : List String) (st : Manager),
      ((restoreLoop st now ids).2.1
        = ids.flatMap (fun c => (dictGet st.chunk_docs c).getD [])) ∧
      ((restoreLoop st now ids).2.2.1
        = ids.filter (fun c => truthyDocs (dictGet st.chunk_docs c))) ∧
      ((restoreLoop st now ids).2.2.2
        = ids.filter (fun c => !truthyDocs (dictGet st.chunk_docs c))) ∧
      ((restoreLoop st now ids).1.chunk_docs = st.chunk_docs) ∧
      (∀ k, dictMem (restoreLoop st now ids).1.chunk_registry k
        = dictMem st.chunk_registry k) ∧
      (∀ k, (dictGet st.chunk_registry k).map DataChunk.status
          = some ChunkStatus.restored →
        (dictGet (restoreLoop st now ids).1.chunk_registry k).map DataChunk.status
          = some ChunkStatus.restored) ∧
      (∀ c ∈ ids, truthyDocs (dictGet st.chunk_docs c) = true →
        dictMem st.chunk_registry c = true →
        (dictGet (restoreLoop st now ids).1.chunk_registry c).map DataChunk.status
          = some ChunkStatus.restored) := by
  intro ids
  induction ids with
  | nil =>
      intro st
      exact ⟨rfl, rfl, rfl, rfl, fun _ => rfl, fun _ h => h, by simp⟩
  | cons c rest ih =>
      intro st
      rw [restoreLoop]
      dsimp only [get_chunk_documents]
      by_cases hc : truthyDocs (dictGet st.chunk_docs c) = true
      · rw [if_pos hc]
        dsimp only
        obtain ⟨ihdocs, ihres, ihfail, ihdocs2, ihmem, ihpersist, ihstat⟩ :=
          ih (mark_chunk_restored st c now)
        have hfields := updateChunkStatus_fields st c .restored
          "Data restored to RAG" now
        have hdocs' : (mark_chunk_restored st c now).chunk_docs
            = st.chunk_docs := hfields.2.2.2.2.2
        have hmem' : ∀ k, dictMem (mark_chunk_restored st c now).chunk_registry k
            = dictMem st.chunk_registry k := fun k => updateChunkStatus_mem
        refine ⟨?_, ?_, ?_, ?_, ?_, ?_, ?_⟩
        · rw [List.flatMap_cons, ihdocs, hdocs']
        · rw [List.filter_cons_of_pos
                (p := fun x => truthyDocs (dictGet st.chunk_docs x)) hc,
              ihres, hdocs']
        · rw [List.filter_cons_of_neg
                (p := fun x => !truthyDocs (dictGet st.chunk_docs x))
                (by simp [hc]),
              ihfail, hdocs']
        · rw [ihdocs2, hdocs']
        · intro k
          rw [ihmem k, hmem' k]
        · intro k hk
          exact ihpersist k (updateChunkStatus_restored_persist hk)
        · intro c' hc' htruthy hmemc
          rcases List.mem_cons.mp hc' with he | hmemrest
          · subst he
            exact ihpersist c' (updateChunkStatus_status_self hmemc)
          · exact ihstat c' hmemrest (by rw [hdocs']; exact htruthy)
              (by rw [hmem' c']; exact hmemc)
      · rw [if_neg hc]
        dsimp only
        obtain ⟨ihdocs, ihres, ihfail, ihdocs2, ihmem, ihpersist, ihstat⟩ := ih st
        refine ⟨?_, ?_, ?_, ihdocs2, ihmem, ihpersist, ?_⟩
        · rw [List.flatMap_cons, ihdocs]
          have : (dictGet st.chunk_docs c).getD [] = [] := by
            cases hd : dictGet st.chunk_docs c with
            | none => rfl
            | some ds =>
                cases ds with
                | nil => rfl
                | cons d t => rw [hd] at hc; simp [truthyDocs] at hc
          rw [this, List.nil_append]
        · rw [List.filter_cons_of_neg
                (p := fun x => truthyDocs (dictGet st.chunk_docs x)) hc, ihres]
        · have hcf : truthyDocs (dictGet st.chunk_docs c) = false :=
            Bool.eq_false_iff.mpr hc
          rw [List.filter_cons_of_pos
                (p := fun x => !truthyDocs (dictGet st.chunk_docs x))
                (by simp [hcf]),
              ihfail]
        · intro c' hc' htruthy hmemc
          rcases List.mem_cons.mp hc' with he | hmemrest
          · subst he
            rw [htruthy] at hc
            cases hc rfl
          · exact ihstat c' hmemrest htruthy hmemc

theorem restorable_id_facts {st : Manager} {arg : Option String} {c : String}
    (h : c ∈ (get_restorable_chunks st arg).map Prod.fst) :
    (dictGet st.chunk_docs c).isSome = true ∧
    dictMem st.chunk_registry c = true := by
  rcases List.mem_map.mp h with ⟨pr, hpr, he⟩
  unfold get_restorable_chunks at hpr
  rcases List.mem_filterMap.mp hpr with ⟨b, hb, hf⟩
  split at hf
  · rename_i hcond
    cases hf
    subst he
    exact ⟨hcond.2, dictMem_of_mem hb⟩
  · cases hf

/-- C3: restoring a non-empty list S of restorable chunk ids returns the
concatenation of each chunk's preserved documents in input order;
afterwards every successfully restored chunk has status RESTORED; and a
chunk whose preserved payload is not readable (falsy) is recorded under
`failed` while every other chunk of S is still restored. -/
theorem restore_chunks_documents_equiv (st : Manager) (S : List String)
    (now : String) (hne : S ≠ [])
    (hS : ∀ c ∈ S, c ∈ (get_restorable_chunks st none).map Prod.fst) :
    ((restore_chunks_to_rag st (some S) now).2.documents
        = S.flatMap (fun c => (get_chunk_documents st c).getD [])) ∧
    ((restore_chunks_to_rag st (some S) now).2.restored_chunks
        = S.filter (fun c => truthyDocs (get_chunk_documents st c))) ∧
    ((restore_chunks_to_rag st (some S) now).2.failed_chunks
        = S.filter (fun c => !truthyDocs (get_chunk_documents st c))) ∧
    (∀ c ∈ (restore_chunks_to_rag st (some S) now).2.restored_chunks,
      (dictGet (restore_chunks_to_rag st (some S) now).1.chunk_registry c).map
          DataChunk.status = some ChunkStatus.restored) := by
  obtain ⟨hdocs, hres, hfail, _, _, _, hstat⟩ := restoreLoop_spec now S st
  refine ⟨hdocs, hres, hfail, ?_⟩
  intro c hc
  have hc' : c ∈ S.filter (fun c => truthyDocs (dictGet st.chunk_docs c)) := by
    rw [← hres]; exact hc
  have hmemS : c ∈ S := List.mem_of_mem_filter hc'
  have htruthy : truthyDocs (dictGet st.chunk_docs c) = true :=
    List.of_mem_filter (p := fun x => truthyDocs (dictGet st.chunk_docs x)) hc'
  exact hstat c hmemS htruthy (restorable_id_facts (hS c hmemS)).2

/-- Closed instance of C3: one FAILED chunk with a one-document payload
restores to exactly that payload and ends RESTORED. -/
theorem restore_chunks_documents_equiv_witness :
    let ch : DataChunk :=
      { chunk_id := "chunk_0001", created_at := "t0", status := .failed,
        model_identity_hash := none, lora_id := none, document_ids := [],
        document_count := 1, character := none, metadata := [], history := [] }
    let st : Manager :=
      { Manager.init with chunk_registry := [("chunk_0001", ch)],
                          chunk_docs := [("chunk_0001", [[("id", "d1")]])] }
    (["chunk_0001"] ≠ ([] : List String)) ∧
    ((restore_chunks_to_rag st (some ["chunk_0001"]) "t1").2.documents
        = ["chunk_0001"].flatMap
            (fun c => (get_chunk_documents st c).getD [])) ∧
    ((restore_chunks_to_rag st (some ["chunk_0001"]) "t1").2.restored_chunks
        = ["chunk_0001"].filter
            (fun c => truthyDocs (get_chunk_documents st c))) ∧
    ((restore_chunks_to_rag st (some ["chunk_0001"]) "t1").2.failed_chunks
        = ["chunk_0001"].filter
            (fun c => !truthyDocs (get_chunk_documents st c))) ∧
    (∀ c ∈ (restore_chunks_to_rag st (some ["chunk_0001"]) "t1").2.restored_chunks,
      (dictGet (restore_chunks_to_rag st (some ["chunk_0001"]) "t1").1.chunk_registry
          c).map DataChunk.status = some ChunkStatus.restored) :=
  ⟨by decide,
   (restore_chunks_documents_equiv _ ["chunk_0001"] "t1" (by decide)
     (by decide)).1,
   (restore_chunks_documents_equiv _ ["chunk_0001"] "t1" (by decide)
     (by decide)).2.1,
   (restore_chunks_documents_equiv _ ["chunk_0001"] "t1" (by decide)
     (by decide)).2.2.1,
   (restore_chunks_documents_equiv _ ["chunk_0001"] "t1" (by decide)
     (by decide)).2.2.2⟩

/-! ## C1 — the switch invalidation pass -/

theorem switchMark_spec (p h now : String) :
    ∀ (items : List (String × LoRARecord)) (st : Manager),
      (∀ pr ∈ items, dictGet st.lora_registry pr.1 = some pr.2) →
      (items.map Prod.fst).Nodup →
      ((switchMark p h now st items).2
          = (items.filter (fun pr => decide (switchCond p pr.2))).map
              (fun pr => markedLora p h now pr.2)) ∧
      (∀ pr ∈ items, switchCond p pr.2 →
        dictGet (switchMark p h now st items).1.lora_registry pr.1
          = some (markedLora p h now pr.2)) ∧
      (∀ pr ∈ items, ¬ switchCond p pr.2 →
        dictGet (switchMark p h now st items).1.lora_registry pr.1
          = some pr.2) ∧
      (∀ k, k ∉ items.map Prod.fst →
        dictGet (switchMark p h now st items).1.lora_registry k
          = dictGet st.lora_registry k) ∧
      ((switchMark p h now st items).1.lora_registry.map Prod.fst
          = st.lora_registry.map Prod.fst) ∧
      ((switchMark p h now st items).1.chunk_registry = st.chunk_registry ∧
       (switchMark p h now st items).1.chunk_docs = st.chunk_docs ∧
       (switchMark p h now st items).1.manifests = st.manifests ∧
       (switchMark p h now st items).1.current_model = st.current_model ∧
       (switchMark p h now st items).1.known_models = st.known_models ∧
       (switchMark p h now st items).1.chunk_counter = st.chunk_counter ∧
       (switchMark p h now st items).1.lora_counter = st.lora_counter ∧
       (switchMark p h now st items).1.chunk_registry_file
          = st.chunk_registry_file) := by
  intro items
  induction items with
  | nil =>
      intro st _ _
      exact ⟨rfl, by simp, by simp, fun k _ => rfl, rfl,
             rfl, rfl, rfl, rfl, rfl, rfl, rfl, rfl⟩
  | cons q rest ih =>
      intro st hwf hnd
      have hq := hwf q (List.mem_cons_self _ _)
      have hrest := fun pr hpr => hwf pr (List.mem_cons_of_mem q hpr)
      rw [List.map_cons, List.nodup_cons] at hnd
      obtain ⟨hq1, hnd'⟩ := hnd
      rw [switchMark]
      by_cases hcond : q.2.model_identity_hash = some p ∧
          q.2.status = LoraStatus.active
      · rw [if_pos hcond]
        dsimp only
        have hmemq : dictMem st.lora_registry q.1 = true :=
          dictMem_iff_get.mpr ⟨_, hq⟩
        have hreg' : (mark_lora_unusable st q.1
              ("Model changed from " ++ p ++ " to " ++ h) now).lora_registry
            = dictModify st.lora_registry q.1 (markedLora p h now) :=
          mark_lora_unusable_registry hmemq
        have hget_q : dictGet (mark_lora_unusable st q.1
              ("Model changed from " ++ p ++ " to " ++ h) now).lora_registry q.1
            = some (markedLora p h now q.2) := by
          rw [hreg', dictModify_get_self, hq]
          rfl
        have hwf' : ∀ pr ∈ rest,
            dictGet (mark_lora_unusable st q.1
              ("Model changed from " ++ p ++ " to " ++ h) now).lora_registry pr.1
            = some pr.2 := by
          intro pr hpr
          have hne : pr.1 ≠ q.1 :=
            fun e => hq1 (e ▸ List.mem_map_of_mem Prod.fst hpr)
          rw [hreg', dictModify_get_ne hne]
          exact hrest pr hpr
        obtain ⟨ih1, ih2, ih3, ih4, ih5, ihf⟩ :=
          ih (mark_lora_unusable st q.1
            ("Model changed from " ++ p ++ " to " ++ h) now) hwf' hnd'
        have hchunkF := mark_lora_unusable_chunkFields st q.1
          ("Model changed from " ++ p ++ " to " ++ h) now
        refine ⟨?_, ?_, ?_, ?_, ?_, ?_, ?_, ?_, ?_, ?_, ?_, ?_, ?_⟩
        · have hdec : decide (switchCond p q.2) = true :=
            decide_eq_true (p := switchCond p q.2) hcond
          rw [List.filter_cons_of_pos
                (p := fun pr => decide (switchCond p pr.2)) (a := q) (l := rest)
                hdec,
              List.map_cons, hget_q, ih1]
          rfl
        · intro pr hpr hc
          rcases List.mem_cons.mp hpr with he | hmemrest
          · subst he
            rw [ih4 pr.1 hq1]
            exact hget_q
          · exact ih2 pr hmemrest hc
        · intro pr hpr hc
          rcases List.mem_cons.mp hpr with he | hmemrest
          · subst he
            exact absurd hcond hc
          · exact ih3 pr hmemrest hc
        · intro k hk
          rw [List.map_cons, List.mem_cons] at hk
          push_neg at hk
          rw [ih4 k hk.2, hreg', dictModify_get_ne (fun e => hk.1 e)]
        · rw [ih5, hreg', dictModify_keys]
        · exact ihf.1.trans hchunkF.1
        · exact ihf.2.1.trans hchunkF.2.2.2.2.2.1
        · exact ihf.2.2.1.trans hchunkF.2.2.2.2.2.2.1
        · exact ihf.2.2.2.1.trans hchunkF.2.2.1
        · exact ihf.2.2.2.2.1.trans hchunkF.2.1
        · exact ihf.2.2.2.2.2.1.trans hchunkF.2.2.2.1
        · exact ihf.2.2.2.2.2.2.1.trans hchunkF.2.2.2.2.1
        · exact ihf.2.2.2.2.2.2.2.trans hchunkF.2.2.2.2.2.2.2
      · rw [if_neg hcond]
        obtain ⟨ih1, ih2, ih3, ih4, ih5, ihf⟩ := ih st hrest hnd'
        refine ⟨?_, ?_, ?_, ?_, ?_, ihf⟩
        · have hdec : ¬(decide (switchCond p q.2) = true) := by
            simp only [decide_eq_true_eq, switchCond]
            exact hcond
          rw [List.filter_cons_of_neg
                (p := fun pr => decide (switchCond p pr.2)) (a := q) (l := rest)
                hdec,
              ih1]
        · intro pr hpr hc
          rcases List.mem_cons.mp hpr with he | hmemrest
          · subst he
            exact absurd hc hcond
          · exact ih2 pr hmemrest hc
        · intro pr hpr hc
          rcases List.mem_cons.mp hpr with he | hmemrest
          · subst he
            rw [ih4 pr.1 hq1]
            exact hq
          · exact ih3 pr hmemrest hc
        · intro k hk
          rw [List.map_cons, List.mem_cons] at hk
          push_neg at hk
          exact ih4 k hk.2
        · exact ih5

/-- C1: when `handle_model_switch` registers a model whose identity hash
`h` differs from the previously current model `p`, every adapter that was
`active` against `p` is marked `unusable` with reason
`"Model changed from <previous> to <new>"`, the returned `unusable_loras`
are exactly the ids of those adapters, and every adapter bound to another
model or in another status keeps its record (hence its status) unchanged. -/
theorem handle_model_switch_unusable (st : Manager) (p h name now : String)
    (fname : Option String)
    (hcur : st.current_model = some p) (hp : p ≠ "") (hph : p ≠ h)
    (hnd : (st.lora_registry.map Prod.fst).Nodup)
    (hids : ∀ pr ∈ st.lora_registry, pr.2.lora_id = pr.1) :
    ((handle_model_switch st h name fname now).2.unusable_loras
        = (st.lora_registry.filter
            (fun pr => decide (switchCond p pr.2))).map Prod.fst) ∧
    (∀ pr ∈ st.lora_registry, switchCond p pr.2 →
      dictGet (handle_model_switch st h name fname now).1.lora_registry pr.1
        = some (markedLora p h now pr.2)) ∧
    (∀ pr ∈ st.lora_registry, ¬ switchCond p pr.2 →
      dictGet (handle_model_switch st h name fname now).1.lora_registry pr.1
        = some pr.2) := by
  have hmc : (register_model st h name fname now).2.model_changed
      = PyVal.vbool (decide (p ≠ h)) := by
    simp [register_model, hcur, hp]
  have hdec : (decide (p ≠ h)) = true := decide_eq_true hph
  have hih : (register_model st h name fname now).2.identity_hash = h := rfl
  have hred1 : (handle_model_switch st h name fname now).2.unusable_loras
      = ((switchMark p h now (register_model st h name fname now).1
          ((register_model st h name fname now).1.lora_registry)).2).map
          (fun l => l.lora_id) := by
    simp only [handle_model_switch, hmc, PyVal.truthy, hdec, Bool.not_true,
      Bool.false_eq_true, if_false, hcur, hp, if_neg, hih]
  have hred2 : (handle_model_switch st h name fname now).1.lora_registry
      = (switchMark p h now (register_model st h name fname now).1
          ((register_model st h name fname now).1.lora_registry)).1.lora_registry := by
    simp only [handle_model_switch, hmc, PyVal.truthy, hdec, Bool.not_true,
      Bool.false_eq_true, if_false, hcur, hp, if_neg, logOp, hih]
  have hwf : ∀ pr ∈ (register_model st h name fname now).1.lora_registry,
      dictGet (register_model st h name fname now).1.lora_registry pr.1
        = some pr.2 := by
    intro pr hpr
    exact dictGet_of_mem_nodup hnd hpr
  obtain ⟨s1, s2, s3, _, _, _⟩ :=
    switchMark_spec p h now
      ((register_model st h name fname now).1.lora_registry)
      (register_model st h name fname now).1 hwf hnd
  refine ⟨?_, ?_, ?_⟩
  · rw [hred1, s1, List.map_map]
    apply List.map_congr_left
    intro pr hpr
    have : (markedLora p h now pr.2).lora_id = pr.2.lora_id := rfl
    simp only [Function.comp_apply, this]
    exact hids pr (List.mem_of_mem_filter hpr)
  · intro pr hpr hc
    rw [hred2]
    exact s2 pr hpr hc
  · intro pr hpr hc
    rw [hred2]
    exact s3 pr hpr hc

/-- Closed instance of C1: switching from `Ha` to `Hb` invalidates the
one active adapter bound to `Ha` and leaves the adapter bound to `Hx`
untouched. -/
theorem handle_model_switch_unusable_witness :
    let r1 : LoRARecord :=
      { lora_id := "lora_0001", created_at := "t",
        model_identity_hash := some "Ha", model_name := none,
        model_type := none, chunk_ids := [], path := none, status := .active,
        training_config := [], metrics := [], notes := "",
        unusable_reason := none, marked_unusable_at := none, deleted_at := none }
    let r2 : LoRARecord :=
      { r1 with lora_id := "lora_0002", model_identity_hash := some "Hx" }
    let st : Manager :=
      { Manager.init with
          current_model := some "Ha",
          lora_registry := [("lora_0001", r1), ("lora_0002", r2)] }
    (st.current_model = some "Ha" ∧ ("Ha" : String) ≠ "" ∧
     ("Ha" : String) ≠ "Hb" ∧ (st.lora_registry.map Prod.fst).Nodup ∧
     (∀ pr ∈ st.lora_registry, pr.2.lora_id = pr.1)) ∧
    (((handle_model_switch st "Hb" "b" none "t2").2.unusable_loras
        = (st.lora_registry.filter
            (fun pr => decide (switchCond "Ha" pr.2))).map Prod.fst) ∧
     (∀ pr ∈ st.lora_registry, switchCond "Ha" pr.2 →
       dictGet (handle_model_switch st "Hb" "b" none "t2").1.lora_registry pr.1
         = some (markedLora "Ha" "Hb" "t2" pr.2)) ∧
     (∀ pr ∈ st.lora_registry, ¬ switchCond "Ha" pr.2 →
       dictGet (handle_model_switch st "Hb" "b" none "t2").1.lora_registry pr.1
         = some pr.2)) :=
  ⟨⟨by decide, by decide, by decide, by decide, by decide⟩,
   handle_model_switch_unusable _ "Ha" "Hb" "b" "t2" none
     (by decide) (by decide) (by decide) (by decide) (by decide)⟩

/-! ## Effect lemmas per operation, for the reachability claims -/

theorem switchMark_chunkFields (p h now : String) :
    ∀ (items : List (String × LoRARecord)) (st : Manager),
      (switchMark p h now st items).1.chunk_docs = st.chunk_docs ∧
      (switchMark p h now st items).1.chunk_counter = st.chunk_counter ∧
      (switchMark p h now st items).1.chunk_registry = st.chunk_registry ∧
      (switchMark p h now st items).1.manifests = st.manifests ∧
      (switchMark p h now st items).1.current_model = st.current_model ∧
      (switchMark p h now st items).1.known_models = st.known_models ∧
      (switchMark p h now st items).1.lora_counter = st.lora_counter := by
  intro items
  induction items with
  | nil => intro st; exact ⟨rfl, rfl, rfl, rfl, rfl, rfl, rfl⟩
  | cons q rest ih =>
      intro st
      rw [switchMark]
      by_cases hcond : q.2.model_identity_hash = some p ∧
          q.2.status = LoraStatus.active
      · rw [if_pos hcond]
        dsimp only
        obtain ⟨i1, i2, i3, i4, i5, i6, i7⟩ :=
          ih (mark_lora_unusable st q.1
            ("Model changed from " ++ p ++ " to " ++ h) now)
        have hf := mark_lora_unusable_chunkFields st q.1
          ("Model changed from " ++ p ++ " to " ++ h) now
        exact ⟨i1.trans hf.2.2.2.2.2.1, i2.trans hf.2.2.2.1,
               i3.trans hf.1, i4.trans hf.2.2.2.2.2.2.1,
               i5.trans hf.2.2.1, i6.trans hf.2.1,
               i7.trans hf.2.2.2.2.1⟩
      · rw [if_neg hcond]
        exact ih st

theorem mark_lora_unusable_not_mem {st : Manager} {l r now : String}
    (h : ¬ dictMem st.lora_registry l = true) :
    mark_lora_unusable st l r now = st := by
  unfold mark_lora_unusable
  rw [if_neg h]

theorem mark_lora_unusable_keys (st : Manager) (l r now : String) :
    (mark_lora_unusable st l r now).lora_registry.map Prod.fst
      = st.lora_registry.map Prod.fst := by
  by_cases hm : dictMem st.lora_registry l = true
  · rw [mark_lora_unusable_registry hm]
    exact dictModify_keys
  · rw [mark_lora_unusable_not_mem hm]

theorem mark_lora_unusable_entries (st : Manager) (l r now : String) :
    ∀ pr ∈ (mark_lora_unusable st l r now).lora_registry,
      pr ∈ st.lora_registry ∨ pr.2.status = .unusable := by
  by_cases hm : dictMem st.lora_registry l = true
  · intro pr hpr
    rw [mark_lora_unusable_registry hm] at hpr
    rcases mem_dictModify hpr with hin | ⟨rec, _, he⟩
    · left; exact hin
    · right; rw [he]
  · rw [mark_lora_unusable_not_mem hm]
    intro pr hpr
    left; exact hpr

theorem delete_lora_registry {st : Manager} {l now : String}
    (h : dictMem st.lora_registry l = true) :
    (delete_lora st l now).1.lora_registry
      = dictModify st.lora_registry l (fun r =>
          { r with status := .deleted, deleted_at := some now }) := by
  unfold delete_lora logOp
  dsimp only
  rw [if_pos h]

theorem delete_lora_not_mem {st : Manager} {l now : String}
    (h : ¬ dictMem st.lora_registry l = true) :
    (delete_lora st l now).1 = st := by
  unfold delete_lora
  rw [if_neg h]

theorem delete_lora_chunkFields (st : Manager) (l now : String) :
    (delete_lora st l now).1.chunk_docs = st.chunk_docs ∧
    (delete_lora st l now).1.chunk_counter = st.chunk_counter ∧
    (delete_lora st l now).1.current_model = st.current_model ∧
    (delete_lora st l now).1.lora_registry.map Prod.fst
      = st.lora_registry.map Prod.fst := by
  by_cases hm : dictMem st.lora_registry l = true
  · refine ⟨?_, ?_, ?_, ?_⟩
    · unfold delete_lora logOp
      dsimp only
      rw [if_pos hm]
    · unfold delete_lora logOp
      dsimp only
      rw [if_pos hm]
    · unfold delete_lora logOp
      dsimp only
      rw [if_pos hm]
    · rw [delete_lora_registry hm]
      exact dictModify_keys
  · rw [delete_lora_not_mem hm]
    exact ⟨rfl, rfl, rfl, rfl⟩

theorem delete_lora_entries (st : Manager) (l now : String) :
    ∀ pr ∈ (delete_lora st l now).1.lora_registry,
      pr ∈ st.lora_registry ∨ pr.2.status = .deleted := by
  by_cases hm : dictMem st.lora_registry l = true
  · intro pr hpr
    rw [delete_lora_registry hm] at hpr
    rcases mem_dictModify hpr with hin | ⟨rec, _, he⟩
    · left; exact hin
    · right; rw [he]
  · rw [delete_lora_not_mem hm]
    intro pr hpr
    left; exact hpr

theorem foldl_mark_trained_fields (l now : String) :
    ∀ (ids : List String) (st : Manager),
      (ids.foldl (fun acc cid => mark_chunk_trained acc cid l now) st).chunk_docs
        = st.chunk_docs ∧
      (ids.foldl (fun acc cid => mark_chunk_trained acc cid l now) st).chunk_counter
        = st.chunk_counter ∧
      (ids.foldl (fun acc cid => mark_chunk_trained acc cid l now) st).lora_registry
        = st.lora_registry ∧
      (ids.foldl (fun acc cid => mark_chunk_trained acc cid l now) st).current_model
        = st.current_model ∧
      (ids.foldl (fun acc cid => mark_chunk_trained acc cid l now) st).lora_counter
        = st.lora_counter ∧
      (ids.foldl (fun acc cid => mark_chunk_trained acc cid l now) st).known_models
        = st.known_models := by
  intro ids
  induction ids with
  | nil => intro st; exact ⟨rfl, rfl, rfl, rfl, rfl, rfl⟩
  | cons c rest ih =>
      intro st
      rw [List.foldl_cons]
      obtain ⟨i1, i2, i3, i4, i5, i6⟩ := ih (mark_chunk_trained st c l now)
      have hf := mark_chunk_trained_fields st c l now
      exact ⟨i1.trans hf.2.2.2.2.2, i2.trans hf.2.2.2.1, i3.trans hf.1,
             i4.trans hf.2.2.1, i5.trans hf.2.2.2.2.1, i6.trans hf.2.1⟩

theorem create_chunk_spec (st : Manager) (documents : List Doc)
    (character : Option String) (metadata : List (String × String))
    (now : String) :
    (create_chunk st documents character metadata now).1.chunk_docs
      = dictSet st.chunk_docs (chunkIdOf (st.chunk_counter + 1)) documents ∧
    (create_chunk st documents character metadata now).1.chunk_counter
      = st.chunk_counter + 1 ∧
    (create_chunk st documents character metadata now).1.lora_registry
      = st.lora_registry ∧
    (create_chunk st documents character metadata now).1.current_model
      = st.current_model ∧
    (create_chunk st documents character metadata now).2.chunk_id
      = chunkIdOf (st.chunk_counter + 1) ∧
    (create_chunk st documents character metadata now).2.status = .pending ∧
    (create_chunk st documents character metadata now).2.model_identity_hash
      = st.current_model :=
  ⟨rfl, rfl, rfl, rfl, rfl, rfl, rfl⟩

theorem register_lora_spec (st : Manager) (cs : List String)
    (cfg m : List (String × String)) (now : String) :
    (register_lora st cs cfg m now).1.chunk_docs = st.chunk_docs ∧
    (register_lora st cs cfg m now).1.chunk_counter = st.chunk_counter ∧
    (register_lora st cs cfg m now).1.current_model = st.current_model ∧
    (register_lora st cs cfg m now).1.lora_registry
      = dictSet st.lora_registry (loraIdOf (st.lora_counter + 1))
          (register_lora st cs cfg m now).2 ∧
    (register_lora st cs cfg m now).2.model_identity_hash = st.current_model ∧
    (register_lora st cs cfg m now).2.status = .active := by
  unfold register_lora logOp
  dsimp only
  have hfold := foldl_mark_trained_fields (loraIdOf (st.lora_counter + 1)) now cs
  split
  · split
    · exact ⟨(hfold _).1, (hfold _).2.1, (hfold _).2.2.2.1,
             ((hfold _).2.2.1).trans rfl, rfl, rfl⟩
    · exact ⟨(hfold _).1, (hfold _).2.1, (hfold _).2.2.2.1,
             ((hfold _).2.2.1).trans rfl, rfl, rfl⟩
  · exact ⟨(hfold _).1, (hfold _).2.1, (hfold _).2.2.2.1,
           ((hfold _).2.2.1).trans rfl, rfl, rfl⟩

theorem restoreLoop_fields (now : String) :
    ∀ (ids : List String) (st : Manager),
      (restoreLoop st now ids).1.chunk_counter = st.chunk_counter ∧
      (restoreLoop st now ids).1.lora_registry = st.lora_registry ∧
      (restoreLoop st now ids).1.current_model = st.current_model ∧
      (restoreLoop st now ids).1.lora_counter = st.lora_counter ∧
      (restoreLoop st now ids).1.known_models = st.known_models := by
  intro ids
  induction ids with
  | nil => intro st; exact ⟨rfl, rfl, rfl, rfl, rfl⟩
  | cons c rest ih =>
      intro st
      rw [restoreLoop]
      dsimp only
      split
      · obtain ⟨i1, i2, i3, i4, i5⟩ := ih (mark_chunk_restored st c now)
        have hf := updateChunkStatus_fields st c .restored
          "Data restored to RAG" now
        exact ⟨i1.trans hf.2.2.2.1, i2.trans hf.1, i3.trans hf.2.2.1,
               i4.trans hf.2.2.2.2.1, i5.trans hf.2.1⟩
      · exact ih st

theorem handle_model_switch_unchanged {st : Manager} {h n : String}
    {f : Option String} {now : String}
    (hmc : ¬ ((register_model st h n f now).2.model_changed.truthy = true)) :
    (handle_model_switch st h n f now).1 = (register_model st h n f now).1 := by
  have hb : (!(register_model st h n f now).2.model_changed.truthy) = true := by
    rw [Bool.eq_false_iff.mpr hmc]
    rfl
  unfold handle_model_switch
  dsimp only
  rw [if_pos hb]

theorem handle_model_switch_changed {st : Manager} {h n : String}
    {f : Option String} {now p : String}
    (hc : st.current_model = some p) (hp : p ≠ "") (hph : p ≠ h) :
    (handle_model_switch st h n f now).1
      = logOp (switchMark p h now (register_model st h n f now).1
          ((register_model st h n f now).1.lora_registry)).1
          "model_switch" ("new_model=" ++ h) now := by
  have hmc : (register_model st h n f now).2.model_changed
      = PyVal.vbool (decide (p ≠ h)) := by
    simp [register_model, hc, hp]
  have hdec : decide (p ≠ h) = true := decide_eq_true hph
  have hih : (register_model st h n f now).2.identity_hash = h := rfl
  simp only [handle_model_switch, hmc, PyVal.truthy, hdec, Bool.not_true,
    Bool.false_eq_true, if_false, hc, hp, if_neg, hih]

theorem handle_model_switch_chunkFields (st : Manager) (h n : String)
    (f : Option String) (now : String) :
    (handle_model_switch st h n f now).1.chunk_docs = st.chunk_docs ∧
    (handle_model_switch st h n f now).1.chunk_counter = st.chunk_counter ∧
    (handle_model_switch st h n f now).1.current_model = some h := by
  by_cases hmc : (register_model st h n f now).2.model_changed.truthy = true
  · cases hc : st.current_model with
    | none =>
        exfalso
        apply absurd hmc
        simp [register_model, hc, PyVal.truthy]
    | some p =>
        by_cases hp : p = ""
        · exfalso
          apply absurd hmc
          subst hp
          simp [register_model, hc, PyVal.truthy]
        · by_cases hph : p = h
          · exfalso
            apply absurd hmc
            subst hph
            simp [register_model, hc, hp, PyVal.truthy]
          · rw [handle_model_switch_changed hc hp hph]
            have hs := switchMark_chunkFields p h now
              ((register_model st h n f now).1.lora_registry)
              (register_model st h n f now).1
            exact ⟨hs.1, hs.2.1, hs.2.2.2.2.1⟩
  · rw [handle_model_switch_unchanged hmc]
    exact ⟨rfl, rfl, rfl⟩

/-! ## C4 — adapter–model coupling invariant -/

theorem handle_model_switch_coupling (st : Manager) (h n : String)
    (f : Option String) (now : String) (hh : h ≠ "")
    (hcur : st.current_model ≠ some "")
    (hnd : (st.lora_registry.map Prod.fst).Nodup)
    (hcoup : adapterCoupling st) :
    ((handle_model_switch st h n f now).1.current_model ≠ some "") ∧
    (((handle_model_switch st h n f now).1.lora_registry.map Prod.fst).Nodup) ∧
    adapterCoupling (handle_model_switch st h n f now).1 := by
  have hcm : (handle_model_switch st h n f now).1.current_model = some h :=
    (handle_model_switch_chunkFields st h n f now).2.2
  refine ⟨by rw [hcm]; intro e; exact hh (Option.some.inj e), ?_, ?_⟩ <;>
  · cases hc : st.current_model with
    | none =>
        have hmc : ¬ ((register_model st h n f now).2.model_changed.truthy
            = true) := by
          simp [register_model, hc, PyVal.truthy]
        rw [handle_model_switch_unchanged hmc]
        first
        | exact hnd
        | · intro pr hpr hdel
            rcases hcoup pr hpr hdel with h1 | h2 | h3
            · rw [hc] at h1
              right; right; exact h1
            · right; left; exact h2
            · right; right; exact h3
    | some p =>
        by_cases hp : p = ""
        · exact absurd (hc.trans (by rw [hp])) hcur
        · by_cases hph : p = h
          · have hmc : ¬ ((register_model st h n f now).2.model_changed.truthy
                = true) := by
              subst hph
              simp [register_model, hc, hp, PyVal.truthy]
            rw [handle_model_switch_unchanged hmc]
            first
            | exact hnd
            | · intro pr hpr hdel
                rcases hcoup pr hpr hdel with h1 | h2 | h3
                · rw [hc, hph] at h1
                  left
                  exact h1.trans (register_model_fields st h n f now).2.2.2.2.2.2.2.symm
                · right; left; exact h2
                · right; right; exact h3
          · rw [handle_model_switch_changed hc hp hph]
            have hwf : ∀ pr ∈ (register_model st h n f now).1.lora_registry,
                dictGet (register_model st h n f now).1.lora_registry pr.1
                  = some pr.2 :=
              fun pr hpr => dictGet_of_mem_nodup hnd hpr
            obtain ⟨s1, s2, s3, s4, s5, sf⟩ :=
              switchMark_spec p h now
                ((register_model st h n f now).1.lora_registry)
                (register_model st h n f now).1 hwf hnd
            first
            | · show ((switchMark p h now (register_model st h n f now).1
                  ((register_model st h n f now).1.lora_registry)).1.lora_registry.map
                    Prod.fst).Nodup
                rw [s5]
                exact hnd
            | · intro pr' hpr' hdel
                have hndf : (((switchMark p h now (register_model st h n f now).1
                    ((register_model st h n f now).1.lora_registry)).1.lora_registry).map
                      Prod.fst).Nodup := by
                  rw [s5]; exact hnd
                have hget : dictGet (switchMark p h now
                    (register_model st h n f now).1
                    ((register_model st h n f now).1.lora_registry)).1.lora_registry
                    pr'.1 = some pr'.2 :=
                  dictGet_of_mem_nodup hndf hpr'
                have hkey : pr'.1 ∈ ((register_model st h n f now).1.lora_registry).map
                    Prod.fst := by
                  rw [← s5]
                  exact List.mem_map_of_mem Prod.fst hpr'
                rcases List.mem_map.mp hkey with ⟨pr, hpr, hfst⟩
                by_cases hcnd : switchCond p pr.2
                · have hget2 := s2 pr hpr hcnd
                  rw [hfst] at hget2
                  have : pr'.2 = markedLora p h now pr.2 :=
                    Option.some.inj (hget.symm.trans hget2)
                  right; left
                  rw [this]
                  rfl
                · have hget2 := s3 pr hpr hcnd
                  rw [hfst] at hget2
                  have he2 : pr'.2 = pr.2 :=
                    Option.some.inj (hget.symm.trans hget2)
                  rw [he2]
                  rw [he2] at hdel
                  rcases hcoup pr hpr hdel with h1 | h2 | h3
                  · rw [hc] at h1
                    cases hs : pr.2.status with
                    | active => exact absurd ⟨h1, hs⟩ hcnd
                    | unusable => right; left; rfl
                    | deleted => exact absurd hs hdel
                  · right; left; exact h2
                  · right; right; exact h3

theorem coupling_of_eq {st st' : Manager}
    (hreg : st'.lora_registry = st.lora_registry)
    (hcur : st'.current_model = st.current_model)
    (h3 : adapterCoupling st) : adapterCoupling st' := by
  intro pr hpr hdel
  rw [hreg] at hpr
  rw [hcur]
  exact h3 pr hpr hdel

theorem applyOp_inv (st : Manager) (op : Op) (hgood : GoodOp op)
    (h1 : st.current_model ≠ some "")
    (h2 : (st.lora_registry.map Prod.fst).Nodup)
    (h3 : adapterCoupling st) :
    (applyOp st op).current_model ≠ some "" ∧
    ((applyOp st op).lora_registry.map Prod.fst).Nodup ∧
    adapterCoupling (applyOp st op) := by
  cases op with
  | register_model h n f now => exact hgood.elim
  | handle_model_switch h n f now =>
      exact handle_model_switch_coupling st h n f now hgood h1 h2 h3
  | register_lora cs cfg m now =>
      simp only [applyOp]
      obtain ⟨_, _, hcur, hreg, hhash, hstat⟩ := register_lora_spec st cs cfg m now
      refine ⟨by rw [hcur]; exact h1, ?_, ?_⟩
      · show (((register_lora st cs cfg m now).1.lora_registry).map Prod.fst).Nodup
        rw [hreg]
        exact dictSet_keys_nodup h2
      · intro pr hpr hdel
        rw [hreg] at hpr
        rcases mem_dictSet hpr with he | hin
        · subst he
          left
          exact hhash.trans hcur.symm
        · rcases h3 pr hin hdel with c1 | c2 | c3
          · left; exact c1.trans hcur.symm
          · right; left; exact c2
          · right; right; exact c3
  | mark_lora_unusable l r now =>
      simp only [applyOp]
      have hf := mark_lora_unusable_chunkFields st l r now
      refine ⟨by rw [hf.2.2.1]; exact h1, ?_, ?_⟩
      · show (((mark_lora_unusable st l r now).lora_registry).map Prod.fst).Nodup
        rw [mark_lora_unusable_keys]
        exact h2
      · intro pr hpr hdel
        rcases mark_lora_unusable_entries st l r now pr hpr with hin | hunus
        · rcases h3 pr hin hdel with c1 | c2 | c3
          · left; exact c1.trans hf.2.2.1.symm
          · right; left; exact c2
          · right; right; exact c3
        · right; left; exact hunus
  | delete_lora l now =>
      simp only [applyOp]
      have hf := delete_lora_chunkFields st l now
      refine ⟨by rw [hf.2.2.1]; exact h1, ?_, ?_⟩
      · show (((delete_lora st l now).1.lora_registry).map Prod.fst).Nodup
        rw [hf.2.2.2]
        exact h2
      · intro pr hpr hdel
        rcases delete_lora_entries st l now pr hpr with hin | hdel'
        · rcases h3 pr hin hdel with c1 | c2 | c3
          · left; exact c1.trans hf.2.2.1.symm
          · right; left; exact c2
          · right; right; exact c3
        · exact absurd hdel' hdel
  | create_chunk d c m now =>
      exact ⟨h1, h2, coupling_of_eq rfl rfl h3⟩
  | transition c s d now =>
      simp only [applyOp]
      have hf := updateChunkStatus_fields st c s d now
      exact ⟨by rw [hf.2.2.1]; exact h1, by rw [hf.1]; exact h2,
             coupling_of_eq hf.1 hf.2.2.1 h3⟩
  | mark_chunk_training c now =>
      simp only [applyOp]
      unfold mark_chunk_training
      have hf := updateChunkStatus_fields st c .training "Training started" now
      exact ⟨by rw [hf.2.2.1]; exact h1, by rw [hf.1]; exact h2,
             coupling_of_eq hf.1 hf.2.2.1 h3⟩
  | mark_chunk_trained c l now =>
      simp only [applyOp]
      have hf := mark_chunk_trained_fields st c l now
      exact ⟨by rw [hf.2.2.1]; exact h1, by rw [hf.1]; exact h2,
             coupling_of_eq hf.1 hf.2.2.1 h3⟩
  | mark_chunk_failed c e now =>
      simp only [applyOp]
      unfold mark_chunk_failed
      have hf := updateChunkStatus_fields st c .failed
        ("Training failed: " ++ e) now
      exact ⟨by rw [hf.2.2.1]; exact h1, by rw [hf.1]; exact h2,
             coupling_of_eq hf.1 hf.2.2.1 h3⟩
  | mark_chunk_restored c now =>
      simp only [applyOp]
      unfold mark_chunk_restored
      have hf := updateChunkStatus_fields st c .restored "Data restored to RAG" now
      exact ⟨by rw [hf.2.2.1]; exact h1, by rw [hf.1]; exact h2,
             coupling_of_eq hf.1 hf.2.2.1 h3⟩
  | restore_chunks cs now =>
      have hreg' : (applyOp st (.restore_chunks cs now)).lora_registry
          = st.lora_registry := by
        show (restore_chunks_to_rag st cs now).1.lora_registry = st.lora_registry
        unfold restore_chunks_to_rag logOp
        dsimp only
        exact (restoreLoop_fields now _ st).2.1
      have hcur' : (applyOp st (.restore_chunks cs now)).current_model
          = st.current_model := by
        show (restore_chunks_to_rag st cs now).1.current_model = st.current_model
        unfold restore_chunks_to_rag logOp
        dsimp only
        exact (restoreLoop_fields now _ st).2.2.1
      exact ⟨by rw [hcur']; exact h1, by rw [hreg']; exact h2,
             coupling_of_eq hreg' hcur' h3⟩

theorem run_inv : ∀ (ops : List Op) (st : Manager),
    (∀ op ∈ ops, GoodOp op) →
    st.current_model ≠ some "" →
    (st.lora_registry.map Prod.fst).Nodup →
    adapterCoupling st →
    (run st ops).current_model ≠ some "" ∧
    ((run st ops).lora_registry.map Prod.fst).Nodup ∧
    adapterCoupling (run st ops) := by
  intro ops
  induction ops with
  | nil => intro st _ h1 h2 h3; exact ⟨h1, h2, h3⟩
  | cons op rest ih =>
      intro st hgood h1 h2 h3
      obtain ⟨g1, g2, g3⟩ := applyOp_inv st op
        (hgood op (List.mem_cons_self _ _)) h1 h2 h3
      exact ih (applyOp st op)
        (fun o ho => hgood o (List.mem_cons_of_mem _ ho)) g1 g2 g3

/-- C4 as stated is false: a bare `register_model` changes the current
model without invalidating adapters, leaving an `active` adapter bound
to a non-current model. -/
theorem adapter_model_coupling_counterexample :
    ¬ adapterCoupling (run Manager.init
      [.register_model "Ha" "a" none "t1",
       .register_lora [] [] [] "t2",
       .register_model "Hb" "b" none "t3"]) := by
  decide

/-- C4 (amended): starting from a fresh install, over every crash-free
operation sequence in which model registration goes through
`handle_model_switch` with non-empty identity hashes (adapter and chunk
operations unrestricted), every adapter record with status ≠ `deleted`
has `model_identity_hash = current_model`, or status `unusable`, or a
null model binding (it was registered before any model was current). -/
theorem adapter_model_coupling (ops : List Op)
    (hgood : ∀ op ∈ ops, GoodOp op) :
    adapterCoupling (run Manager.init ops) :=
  (run_inv ops Manager.init hgood (by decide) (by decide) (by decide)).2.2

/-- Closed instance of C4 (amended): a switch sequence that trains an
adapter on `Ha` and then switches to `Hb` satisfies the coupling. -/
theorem adapter_model_coupling_witness :
    (∀ op ∈ [Op.handle_model_switch "Ha" "a" none "t1",
             Op.register_lora [] [] [] "t2",
             Op.handle_model_switch "Hb" "b" none "t3"], GoodOp op) ∧
    adapterCoupling (run Manager.init
      [Op.handle_model_switch "Ha" "a" none "t1",
       Op.register_lora [] [] [] "t2",
       Op.handle_model_switch "Hb" "b" none "t3"]) :=
  ⟨by decide, adapter_model_coupling _ (by decide)⟩

/-! ## C8 — preserved documents survive every later operation -/

theorem applyOp_docs (st : Manager) (op : Op) :
    ((applyOp st op).chunk_docs = st.chunk_docs ∧
     (applyOp st op).chunk_counter = st.chunk_counter) ∨
    (∃ ds, (applyOp st op).chunk_docs
        = dictSet st.chunk_docs (chunkIdOf (st.chunk_counter + 1)) ds ∧
      (applyOp st op).chunk_counter = st.chunk_counter + 1) := by
  cases op with
  | register_model h n f now => exact Or.inl ⟨rfl, rfl⟩
  | handle_model_switch h n f now =>
      exact Or.inl ⟨(handle_model_switch_chunkFields st h n f now).1,
                    (handle_model_switch_chunkFields st h n f now).2.1⟩
  | register_lora cs cfg m now =>
      exact Or.inl ⟨(register_lora_spec st cs cfg m now).1,
                    (register_lora_spec st cs cfg m now).2.1⟩
  | mark_lora_unusable l r now =>
      exact Or.inl ⟨(mark_lora_unusable_chunkFields st l r now).2.2.2.2.2.1,
                    (mark_lora_unusable_chunkFields st l r now).2.2.2.1⟩
  | delete_lora l now =>
      exact Or.inl ⟨(delete_lora_chunkFields st l now).1,
                    (delete_lora_chunkFields st l now).2.1⟩
  | create_chunk d c m now =>
      exact Or.inr ⟨d, (create_chunk_spec st d c m now).1,
                    (create_chunk_spec st d c m now).2.1⟩
  | transition c s d now =>
      exact Or.inl ⟨(updateChunkStatus_fields st c s d now).2.2.2.2.2,
                    (updateChunkStatus_fields st c s d now).2.2.2.1⟩
  | mark_chunk_training c now =>
      exact Or.inl
        ⟨(updateChunkStatus_fields st c .training "Training started" now).2.2.2.2.2,
         (updateChunkStatus_fields st c .training "Training started" now).2.2.2.1⟩
  | mark_chunk_trained c l now =>
      exact Or.inl ⟨(mark_chunk_trained_fields st c l now).2.2.2.2.2,
                    (mark_chunk_trained_fields st c l now).2.2.2.1⟩
  | mark_chunk_failed c e now =>
      exact Or.inl
        ⟨(updateChunkStatus_fields st c .failed
            ("Training failed: " ++ e) now).2.2.2.2.2,
         (updateChunkStatus_fields st c .failed
            ("Training failed: " ++ e) now).2.2.2.1⟩
  | mark_chunk_restored c now =>
      exact Or.inl
        ⟨(updateChunkStatus_fields st c .restored
            "Data restored to RAG" now).2.2.2.2.2,
         (updateChunkStatus_fields st c .restored
            "Data restored to RAG" now).2.2.2.1⟩
  | restore_chunks cs now =>
      refine Or.inl ⟨?_, ?_⟩
      · show (restore_chunks_to_rag st cs now).1.chunk_docs = st.chunk_docs
        unfold restore_chunks_to_rag logOp
        dsimp only
        exact (restoreLoop_spec now _ st).2.2.2.1
      · show (restore_chunks_to_rag st cs now).1.chunk_counter = st.chunk_counter
        unfold restore_chunks_to_rag logOp
        dsimp only
        exact (restoreLoop_fields now _ st).1

theorem run_preserves_doc (D : List Doc) (m : Nat) :
    ∀ (ops : List Op) (st : Manager),
      dictGet st.chunk_docs (chunkIdOf m) = some D →
      m ≤ st.chunk_counter →
      dictGet (run st ops).chunk_docs (chunkIdOf m) = some D ∧
      m ≤ (run st ops).chunk_counter := by
  intro ops
  induction ops with
  | nil => intro st h1 h2; exact ⟨h1, h2⟩
  | cons op rest ih =>
      intro st h1 h2
      rw [run]
      rcases applyOp_docs st op with ⟨e1, e2⟩ | ⟨ds, e1, e2⟩
      · exact ih _ (by rw [e1]; exact h1) (by rw [e2]; exact h2)
      · refine ih _ ?_ ?_
        · rw [e1, dictGet_set_ne (fun e => by
            have := chunkIdOf_inj e
            omega)]
          exact h1
        · rw [e2]
          omega

/-- C8: the documents passed to `create_chunk` are returned verbatim by
`get_chunk_documents` after any sequence of further core operations (no
operation ever deletes or rewrites a chunk's preserved documents; in
particular no reachable chunk is ever ARCHIVED, so the never-ARCHIVED
proviso is satisfied throughout). -/
theorem documents_preservation (ops1 : List Op) (documents : List Doc)
    (character : Option String) (metadata : List (String × String))
    (now : String) (ops2 : List Op) :
    get_chunk_documents
      (run (create_chunk (run Manager.init ops1) documents character
        metadata now).1 ops2)
      (create_chunk (run Manager.init ops1) documents character
        metadata now).2.chunk_id
      = some documents := by
  have hspec := create_chunk_spec (run Manager.init ops1) documents
    character metadata now
  have h1 : dictGet (create_chunk (run Manager.init ops1) documents character
      metadata now).1.chunk_docs
      (chunkIdOf ((run Manager.init ops1).chunk_counter + 1)) = some documents := by
    rw [hspec.1, dictGet_set_self]
  have hrun := run_preserves_doc documents
    ((run Manager.init ops1).chunk_counter + 1) ops2 _ h1
    (le_of_eq hspec.2.1.symm)
  rw [show (create_chunk (run Manager.init ops1) documents character
        metadata now).2.chunk_id
      = chunkIdOf ((run Manager.init ops1).chunk_counter + 1)
    from hspec.2.2.2.2.1]
  exact hrun.1

end ChunkCore
